import Mathlib

/-!
# oga: the admission gate of bjhaid/oga

A shallow embedding of `initializer/controller.go`, `initializer/deploymentstore.go`,
`initializer/fake_requester.go` and `requester/slack_requester.go`, followed by theorems
about the gate and about the Slack requester.

Conventions of the embedding

* A Go pointer to a struct that the code mutates in place is passed by value and
  handed back by every function that receives it; a nil pointer is `none`.
* A Go map is an association list with at most one pair per key; a nil map is `none`.
* A runtime panic (nil dereference, write to a nil map) is the `panic` outcome.
* The Kubernetes client is the scripted fake of client-go: each `Update` consumes one
  scripted reply, an exhausted script answers success, and every call is recorded.
* The YAML library is a parameter of the development: a call of `yaml.Unmarshal` returns
  an error, or leaves its target nil, or fills it.
* The Slack client answers `GetUsers`, `GetChannels` and `PostMessage` as a fixed fake
  does, and the messages posted and sent are recorded.
* The gate behind `initializer.Interface` records the `ApproveDeployment` calls made on it.
-/

namespace Oga

/-! ## Go maps -/

/-- Go map with string keys, kept as an association list. -/
abbrev GoMap (β : Type) := List (String × β)

/-- Lookup `m[k]` with the comma-ok result. -/
def mapGet {β : Type} : GoMap β → String → Option β
  | [], _ => none
  | (k1, v) :: rest, k => if k1 = k then some v else mapGet rest k

/-- Builtin `delete(m, k)`. -/
def mapDelete {β : Type} : GoMap β → String → GoMap β
  | [], _ => []
  | (k1, v) :: rest, k => if k1 = k then mapDelete rest k else (k1, v) :: mapDelete rest k

/-- Assignment `m[k] = v`. -/
def mapSet {β : Type} (m : GoMap β) (k : String) (v : β) : GoMap β :=
  (k, v) :: mapDelete m k

/-! ## The fields of the Kubernetes objects that the gate reads or writes -/

namespace metav1

/-- Type `metav1.Initializer`. -/
structure Initializer where
  Name : String
deriving DecidableEq, Repr

/-- Type `metav1.Initializers`; only `Pending` is used by the gate. -/
structure Initializers where
  Pending : List Initializer
deriving DecidableEq, Repr

/-- Type `metav1.ObjectMeta`; `Annotations` is a possibly nil map and `Initializers`
a possibly nil pointer. -/
structure ObjectMeta where
  Name : String
  Namespace : String
  Annotations : Option (GoMap String)
  Initializers : Option Initializers
deriving DecidableEq, Repr

end metav1

namespace v1

/-- Type `v1.Container`; only the image is read. -/
structure Container where
  Image : String
deriving DecidableEq, Repr

end v1

namespace v1beta1

/-- Type `v1beta1.Deployment`; `Containers` stands for `Spec.Template.Spec.Containers`. -/
structure Deployment where
  ObjectMeta : metav1.ObjectMeta
  Containers : List v1.Container
deriving DecidableEq, Repr

/-- Promoted field `deployment.Name`. -/
def Deployment.Name (d : Deployment) : String := d.ObjectMeta.Name

/-- Promoted field `deployment.Namespace`. -/
def Deployment.Namespace (d : Deployment) : String := d.ObjectMeta.Namespace

/-- Method `ObjectMeta.GetInitializers`. -/
def Deployment.GetInitializers (d : Deployment) : Option metav1.Initializers :=
  d.ObjectMeta.Initializers

/-- Method `ObjectMeta.GetAnnotations`. -/
def Deployment.GetAnnotations (d : Deployment) : Option (GoMap String) :=
  d.ObjectMeta.Annotations

end v1beta1

open v1beta1 (Deployment)

/-- Read `annotations[key]` with the comma-ok result; reading a nil map finds nothing. -/
def annotationLookup (annotations : Option (GoMap String)) (key : String) : Option String :=
  match annotations with
  | none => none
  | some m => mapGet m key

/-- Read `annotations[key]`, the zero value `""` standing in for a missing key. -/
def annotationValue (annotations : Option (GoMap String)) (key : String) : String :=
  (annotationLookup annotations key).getD ""

/-- The pending-initializer sequence of a deployment (empty when the field is nil). -/
def pendingOf (d : Deployment) : List metav1.Initializer :=
  match d.ObjectMeta.Initializers with
  | none => []
  | some inits => inits.Pending

/-! ## controller.go: globals and types -/

/-- Constant `defaultInitializerName`. -/
def defaultInitializerName : String := "oga.initializer.kubernetes.io"

/-- Constant `defaultAnnotation`. -/
def defaultAnnotation : String := "initializer.kubernetes.io/oga"

/-- The package variables `annotation` and `initializerName` set from the flags. -/
structure Config where
  annotation : String
  initializerName : String
deriving DecidableEq, Repr

/-- The flag defaults registered in `init`. -/
def defaultConfig : Config :=
  { annotation := defaultAnnotation, initializerName := defaultInitializerName }

/-- Type `Approval`. -/
structure Approval where
  Approver : String
  DeploymentName : String
  RequesterName : String
deriving DecidableEq, Repr

/-- Runtime panics the gate can raise. -/
inductive Panic where
  | nilDereference
  | nilMapWrite
deriving DecidableEq, Repr

/-- Result of running a Go function: it returns, or it panics. -/
inductive Outcome (α : Type) where
  | done (a : α)
  | panic (p : Panic)
deriving DecidableEq, Repr

/-! ## The Kubernetes client -/

/-- What the API server answers to one `Update`: success, a version conflict (together
with the deployment the following `Get` fetches), or another error. -/
inductive UpdateReply where
  | success
  | conflict (latest : Deployment)
  | failure (err : String)
deriving DecidableEq, Repr

/-- A call made on the deployments client. -/
inductive Action where
  | Update (ns : String) (d : Deployment)
  | Get (ns : String) (name : String)
deriving DecidableEq, Repr

/-- The client set: the scripted replies still to come and the calls recorded so far. -/
structure Clientset where
  reactions : List UpdateReply
  actions : List Action
deriving DecidableEq, Repr

/-! ## deploymentstore.go -/

/-- Type `DeploymentStore` (the mutex is not modelled). -/
structure DeploymentStore where
  table : GoMap Deployment
deriving DecidableEq, Repr

/-- Function `NewDeploymentStore`. -/
def NewDeploymentStore : DeploymentStore := { table := [] }

/-- Method `DeploymentStore.put`. -/
def DeploymentStore.put (store : DeploymentStore) (key : String) (value : Deployment) :
    DeploymentStore :=
  { table := mapSet store.table key value }

/-- Method `DeploymentStore.get`. -/
def DeploymentStore.get (store : DeploymentStore) (key : String) : Option Deployment :=
  mapGet store.table key

/-- Method `DeploymentStore.deleteKey`. -/
def DeploymentStore.deleteKey (store : DeploymentStore) (key : String) : DeploymentStore :=
  { table := mapDelete store.table key }

/-- Type `OgaInitializer` (the stop channel is not modelled). -/
structure OgaInitializer where
  clientSet : Clientset
  store : DeploymentStore
deriving DecidableEq, Repr

/-! ## The YAML library -/

/-- What `yaml.Unmarshal` does to its target: it returns an error, or it returns no error
and sets the target (a map or a pointer) to nil, as for a null document, or it returns no
error and fills the target with a value. -/
inductive Decoded (α : Type) where
  | failure
  | null
  | value (a : α)
deriving DecidableEq, Repr

/-- The two functions of `github.com/ghodss/yaml` the gate calls, over a type `V` of
decoded values (the Go empty interface) into which strings embed. A failed `Marshal` is
`none`. -/
structure YamlCodec (V : Type) where
  ofString : String → V
  Unmarshal : String → Decoded (GoMap V)
  Marshal : GoMap V → Option String

/-! ## The requester -/

/-- A `Requester`: its name, the approvals with which its `RequestApproval` calls
`ApproveDeployment` on the gate before it returns, and the record of the
`RequestApproval` calls it has received. -/
structure Requester where
  Name : String
  RequestApproval : Approval → String → List Approval
  received : List (Approval × String)

/-- Method `GetName`. -/
def Requester.GetName (req : Requester) : String := req.Name

/-- The `FakeRequester` of fake_requester.go: `RequestApproval` does nothing. -/
def FakeRequester (name : String) : Requester :=
  { Name := name, RequestApproval := fun _ _ => [], received := [] }

/-! ## controller.go: initializeDeployment -/

/-- The inner `for` loop of `initializeDeployment`: submit `deployment` with `Update`;
on a conflict `Get` the latest version and submit that; stop on success or on another
error, which is returned. -/
def updateLoop : List UpdateReply → Deployment → List Action →
    Option String × List UpdateReply × List Action
  | [], deployment, actions =>
      (none, [], actions ++ [Action.Update deployment.Namespace deployment])
  | UpdateReply.success :: rest, deployment, actions =>
      (none, rest, actions ++ [Action.Update deployment.Namespace deployment])
  | UpdateReply.failure err :: rest, deployment, actions =>
      (some err, rest, actions ++ [Action.Update deployment.Namespace deployment])
  | UpdateReply.conflict latest :: rest, deployment, actions =>
      updateLoop rest latest
        (actions ++ [Action.Update deployment.Namespace deployment,
                     Action.Get deployment.Namespace deployment.Name])

/-- The `range` loop of `initializeDeployment` over `dupPendingInitializers` from index
`i` on. It returns the error, the deployment object of the caller and the gate. -/
def rangeLoop (cfg : Config) (pendingInitializers : List metav1.Initializer)
    (inits : metav1.Initializers) (deployment : Deployment) (oga : OgaInitializer) :
    List metav1.Initializer → Nat → Option String × Deployment × OgaInitializer
  | [], _ => (none, deployment, oga)
  | pendingInitializer :: rest, i =>
      if cfg.initializerName = pendingInitializer.Name then
        let mutated : Deployment :=
          if pendingInitializers.length = 1 then
            { deployment with
              ObjectMeta := { deployment.ObjectMeta with Initializers := none } }
          else
            { deployment with
              ObjectMeta := { deployment.ObjectMeta with
                Initializers := some { inits with
                  Pending := pendingInitializers.take i ++ pendingInitializers.drop (i + 1) } } }
        let r := updateLoop oga.clientSet.reactions mutated oga.clientSet.actions
        (r.1, mutated, { oga with clientSet := { reactions := r.2.1, actions := r.2.2 } })
      else
        rangeLoop cfg pendingInitializers inits deployment oga rest (i + 1)

/-- Method `OgaInitializer.initializeDeployment`. -/
def initializeDeployment (cfg : Config) (deployment : Deployment) (oga : OgaInitializer) :
    Outcome (Option String × Deployment × OgaInitializer) :=
  match deployment.GetInitializers with
  | none => Outcome.panic Panic.nilDereference
  | some inits =>
      let pendingInitializers := inits.Pending
      let dupPendingInitializers := pendingInitializers
      Outcome.done
        (rangeLoop cfg pendingInitializers inits deployment oga dupPendingInitializers 0)

/-! ## controller.go: ApproveDeployment, GetDeployment, processDeployment -/

/-- The annotation enrichment of `ApproveDeployment`: decode the value under
`defaultAnnotation`, set `approved_by`, encode it and write it back. Setting `approved_by`
in a map that the decoder left nil panics. -/
def enrichAnnotation {V : Type} (codec : YamlCodec V) (approvedDeployment : Approval)
    (deployment : Deployment) : Outcome Deployment :=
  match codec.Unmarshal (annotationValue deployment.ObjectMeta.Annotations defaultAnnotation) with
  | Decoded.failure => Outcome.done deployment
  | Decoded.null => Outcome.panic Panic.nilMapWrite
  | Decoded.value actualAnnotation =>
      match codec.Marshal
          (mapSet actualAnnotation "approved_by" (codec.ofString approvedDeployment.Approver)) with
      | none => Outcome.done deployment
      | some b =>
          match deployment.ObjectMeta.Annotations with
          | none => Outcome.panic Panic.nilMapWrite
          | some annotations =>
              Outcome.done
                { deployment with
                  ObjectMeta := { deployment.ObjectMeta with
                    Annotations := some (mapSet annotations defaultAnnotation b) } }

/-- Method `OgaInitializer.ApproveDeployment`. It returns the deployment object it
worked on and the gate. -/
def ApproveDeployment {V : Type} (cfg : Config) (codec : YamlCodec V)
    (approvedDeployment : Approval) (oga : OgaInitializer) :
    Outcome (Deployment × OgaInitializer) :=
  match oga.store.get approvedDeployment.DeploymentName with
  | none => Outcome.panic Panic.nilDereference
  | some deployment =>
      match enrichAnnotation codec approvedDeployment deployment with
      | Outcome.panic p => Outcome.panic p
      | Outcome.done enriched =>
          match initializeDeployment cfg enriched oga with
          | Outcome.panic p => Outcome.panic p
          | Outcome.done (_, initialized, oga1) =>
              Outcome.done
                (initialized,
                 { oga1 with store := oga1.store.deleteKey approvedDeployment.DeploymentName })

/-- Method `OgaInitializer.GetDeployment`. -/
def GetDeployment (oga : OgaInitializer) (deploymentName : String) : Option Deployment :=
  oga.store.get deploymentName

/-- The calls a requester makes back into the gate during `RequestApproval`, in order.
The deployment object of the caller is the one stored under its own name, so an
approval of that name works on it. -/
def runCallbacks {V : Type} (cfg : Config) (codec : YamlCodec V) :
    List Approval → Deployment → OgaInitializer → Outcome (Deployment × OgaInitializer)
  | [], deployment, oga => Outcome.done (deployment, oga)
  | approval :: rest, deployment, oga =>
      match ApproveDeployment cfg codec approval oga with
      | Outcome.panic p => Outcome.panic p
      | Outcome.done (approved, oga1) =>
          runCallbacks cfg codec rest
            (if approval.DeploymentName = deployment.Name then approved else deployment) oga1

/-- Method `OgaInitializer.processDeployment`. It returns the deployment
object of the caller, the requester and the gate. -/
def processDeployment {V : Type} (cfg : Config) (codec : YamlCodec V)
    (deployment : Deployment) (req : Requester) (oga : OgaInitializer) :
    Outcome (Deployment × Requester × OgaInitializer) :=
  let annotations := deployment.GetAnnotations
  let annon := annotationLookup annotations cfg.annotation
  match deployment.GetInitializers with
  | none => Outcome.done (deployment, req, oga)
  | some _ =>
      match annon with
      | some annon =>
          let oga1 := { oga with store := oga.store.put deployment.Name deployment }
          let approval : Approval :=
            { Approver := "", DeploymentName := deployment.Name, RequesterName := req.GetName }
          let req1 := { req with received := req.received ++ [(approval, annon)] }
          match runCallbacks cfg codec (req.RequestApproval approval annon) deployment oga1 with
          | Outcome.panic p => Outcome.panic p
          | Outcome.done (deployment1, oga2) => Outcome.done (deployment1, req1, oga2)
      | none =>
          match initializeDeployment cfg deployment oga with
          | Outcome.panic p => Outcome.panic p
          | Outcome.done (_, deployment1, oga1) => Outcome.done (deployment1, req, oga1)

/-! ## The Slack library and the LRU cache used by slack_requester.go -/

namespace slack

/-- Type `slack.UserProfile`; only the fields the requester reads. -/
structure UserProfile where
  DisplayName : String
  RealName : String
  Email : String
deriving DecidableEq, Repr

/-- Type `slack.User`. -/
structure User where
  ID : String
  Profile : UserProfile
deriving DecidableEq, Repr

/-- Type `slack.Channel`. -/
structure Channel where
  ID : String
  Name : String
deriving DecidableEq, Repr

/-- Type `slack.MessageEvent`; only the fields the requester reads. -/
structure MessageEvent where
  User : String
  Text : String
  Channel : String
deriving DecidableEq, Repr

/-- The data of an event read from `rtm.IncomingEvents`, by the cases of the type switch
in `Run`. -/
inductive RTMEvent where
  | Message (ev : MessageEvent)
  | RTMError (msg : String)
  | InvalidAuthEvent
  | Other
deriving DecidableEq, Repr

end slack

namespace lru

/-- Type `lru.Cache` of hashicorp/golang-lru with string keys: the capacity and the
entries, most recently used first. -/
structure Cache (V : Type) where
  size : Nat
  items : GoMap V
deriving DecidableEq, Repr

/-- Function `lru.New`. -/
def New (V : Type) (size : Nat) : Cache V := { size := size, items := [] }

/-- Method `Cache.Get`: the value with the comma-ok result; a hit becomes the most recently
used entry. -/
def Cache.Get {V : Type} (c : Cache V) (key : String) : Option V × Cache V :=
  match mapGet c.items key with
  | none => (none, c)
  | some v => (some v, { c with items := (key, v) :: mapDelete c.items key })

/-- Method `Cache.Add`: the entry becomes the most recently used one and the oldest entry
is evicted when the capacity is exceeded. -/
def Cache.Add {V : Type} (c : Cache V) (key : String) (v : V) : Cache V :=
  match mapGet c.items key with
  | some _ => { c with items := (key, v) :: mapDelete c.items key }
  | none => { c with items := ((key, v) :: c.items).take c.size }

end lru

/-! ## slack_requester.go -/

/-- The gate as a requester sees it through `initializer.Interface`: what `GetDeployment`
answers, and the record of the `ApproveDeployment` calls made on it. -/
structure Interface where
  GetDeployment : String → Option Deployment
  approved : List Approval

/-- A call of `ApproveDeployment` on the gate behind the interface. -/
def Interface.ApproveDeployment (oga : Interface) (approvedDeployment : Approval) : Interface :=
  { oga with approved := oga.approved ++ [approvedDeployment] }

namespace requester

/-- Type `Config`. -/
structure Config where
  Channel : String
  Approvers : List String
deriving DecidableEq, Repr

/-- Type `Annotation`. -/
structure Annotation where
  Slack : Config
deriving DecidableEq, Repr

/-- The methods of `SlackClient` the requester calls: what `GetChannels`, `GetUsers` and
`PostMessage` answer (an error is a message). -/
structure SlackClient where
  GetChannels : Except String (List slack.Channel)
  GetUsers : Except String (List slack.User)
  PostMessage : String → String → List String → Option String

/-- Type `SlackRequester`. The two maps are the ones `NewSlackRequester` makes, so they
are not nil. `initializer` tells whether the interface value has been set; the process
has one gate. `posted` and `sent` record the `PostMessage` and `SendMessage` calls. -/
structure SlackRequester where
  Name : String
  api : SlackClient
  requestStore : GoMap Approval
  userID : String
  initializer : Bool
  approvers : GoMap (List String)
  userCache : lru.Cache slack.User
  channelCache : lru.Cache slack.Channel
  posted : List (String × String × List String)
  sent : List (String × String)

/-- Whether `c` is matched by the class `\w` of Go regular expressions. -/
def isWordChar (c : Char) : Bool := c.isAlphanum || c == '_'

/-- The rest of `s` after the literal `lit`, when `s` starts with it. -/
def afterLiteral : List Char → List Char → Option (List Char)
  | [], s => some s
  | _ :: _, [] => none
  | l :: lit, c :: s => if l = c then afterLiteral lit s else none

/-- A match of the pattern `oga approve (\w+)` that starts at the head of `s`: the text
of the group. -/
def matchHere (s : List Char) : Option (List Char) :=
  match afterLiteral "oga approve ".data s with
  | none => none
  | some rest =>
      if rest.takeWhile isWordChar = [] then none else some (rest.takeWhile isWordChar)

/-- The leftmost match of the pattern in `s`. -/
def findMatch : List Char → Option (List Char)
  | [] => none
  | c :: s =>
      match matchHere (c :: s) with
      | some group => some group
      | none => findMatch s

/-- Call `re.FindStringSubmatch(text)` for `re = oga approve (\w+)`: `match[1]` when the
result has two elements, that is when the pattern matches. -/
def FindStringSubmatch (text : String) : Option String :=
  (findMatch text.data).map String.mk

/-- Removal of the first occurrence of a character. -/
def removeFirst (c : Char) : List Char → List Char
  | [] => []
  | x :: xs => if x = c then xs else x :: removeFirst c xs

/-- Call `strings.Replace(s, old, "", 1)` for a one-character `old`. -/
def stringsReplaceOnce (s : String) (old : Char) : String := String.mk (removeFirst old s.data)

/-- The loop of `getUserID` over the users of the workspace. -/
def findUser (user : String) : List slack.User → Option slack.User
  | [] => none
  | u :: rest =>
      if user = u.Profile.DisplayName ∨ user = u.Profile.RealName then some u
      else findUser user rest

/-- Method `SlackRequester.getUserID`: the ID, the error and the requester. -/
def getUserID (req : SlackRequester) (user : String) :
    (String × Option String) × SlackRequester :=
  match req.api.GetUsers with
  | Except.error err => (("", some err), req)
  | Except.ok channels =>
      let user := stringsReplaceOnce user '@'
      let r := req.userCache.Get user
      match r.1 with
      | some u => ((u.ID, none), { req with userCache := r.2 })
      | none =>
          match findUser user channels with
          | some u => ((u.ID, none), { req with userCache := r.2.Add user u })
          | none =>
              (("", some (user ++ " user does not exist in slack API")),
               { req with userCache := r.2 })

/-- The loop of `getChannelID` over the channels of the workspace. -/
def findChannel (channel : String) : List slack.Channel → Option slack.Channel
  | [] => none
  | cha :: rest => if channel = cha.Name then some cha else findChannel channel rest

/-- Method `SlackRequester.getChannelID`: the ID, the error and the requester. -/
def getChannelID (req : SlackRequester) (channel : String) :
    (String × Option String) × SlackRequester :=
  match req.api.GetChannels with
  | Except.error err => (("", some err), req)
  | Except.ok channels =>
      let channel := stringsReplaceOnce channel '#'
      let r := req.channelCache.Get channel
      match r.1 with
      | some cha => ((cha.ID, none), { req with channelCache := r.2 })
      | none =>
          match findChannel channel channels with
          | some cha => ((cha.ID, none), { req with channelCache := r.2.Add channel cha })
          | none =>
              (("", some (channel ++ " channel does not exist in slack API")),
               { req with channelCache := r.2 })

/-- The loop of `retrieveApproverIds`. The error of `getUserID` lives in the scope of the
`if` statement; the variable `err` the method returns is declared before the loop and
never assigned, so it is handed through as it is. -/
def retrieveLoop : List String → SlackRequester → List String → Option String →
    (List String × Option String) × SlackRequester
  | [], req, ids, err => ((ids, err), req)
  | appr :: rest, req, ids, err =>
      match (getUserID req appr).1.2 with
      | some _ => retrieveLoop rest (getUserID req appr).2 ids err
      | none =>
          retrieveLoop rest (getUserID req appr).2 (ids ++ [(getUserID req appr).1.1]) err

/-- Method `SlackRequester.retrieveApproverIds`: the IDs, the error and the requester. -/
def retrieveApproverIds (req : SlackRequester) (approvers : List String) :
    (List String × Option String) × SlackRequester :=
  retrieveLoop approvers req [] none

/-- Method `SlackRequester.convertDeploymentToFields`: the values of the fields. -/
def convertDeploymentToFields (oga : Interface) (deploymentName : String) :
    Outcome (List String) :=
  match oga.GetDeployment deploymentName with
  | none => Outcome.panic Panic.nilDereference
  | some deployment => Outcome.done (deployment.Containers.map (fun container => container.Image))

/-- Call `fmt.Sprintf(textTemplate, formatedApproverIds, name, name)`. -/
def renderText (formatedApproverIds deploymentName : String) : String :=
  formatedApproverIds ++ " Deployment *" ++ deploymentName ++
    "* requires approval, to approve respond with:\n\n\t`oga approve " ++ deploymentName ++ "`"

/-- The text `RequestApproval` posts for the resolved approver IDs. -/
def promptText (approverIds : List String) (deploymentName : String) : String :=
  renderText (String.intercalate ", " (approverIds.map (fun approver => "<@" ++ approver ++ ">")))
    deploymentName

/-- Method `SlackRequester.RequestApproval`, with `yaml.Unmarshal` into the annotation
structure as the parameter `decode`. Reading `annotation.Slack` through a pointer that the
decoder left nil panics. -/
def RequestApproval (decode : String → Decoded Annotation) (req : SlackRequester)
    (oga : Interface) (app : Approval) (annon : String) :
    Outcome (SlackRequester × Interface) :=
  let req0 := { req with requestStore := mapSet req.requestStore app.DeploymentName app }
  match decode annon with
  | Decoded.failure => Outcome.done (req0, oga.ApproveDeployment app)
  | Decoded.null => Outcome.panic Panic.nilDereference
  | Decoded.value decoded =>
      if decoded.Slack.Channel = "" then Outcome.done (req0, oga.ApproveDeployment app)
      else
        let c := getChannelID req0 decoded.Slack.Channel
        match c.1.2 with
        | some _ => Outcome.done (c.2, oga.ApproveDeployment app)
        | none =>
            let a := retrieveApproverIds c.2 decoded.Slack.Approvers
            match a.1.2 with
            | some _ => Outcome.done (a.2, oga.ApproveDeployment app)
            | none =>
                match convertDeploymentToFields oga app.DeploymentName with
                | Outcome.panic p => Outcome.panic p
                | Outcome.done fields =>
                    let text := promptText a.1.1 app.DeploymentName
                    let req1 := { a.2 with posted := a.2.posted ++ [(c.1.1, text, fields)] }
                    match req1.api.PostMessage c.1.1 text fields with
                    | some _ => Outcome.done (req1, oga.ApproveDeployment app)
                    | none =>
                        Outcome.done
                          ({ req1 with
                              requestStore := mapSet req1.requestStore app.DeploymentName app
                              initializer := true
                              approvers :=
                                mapSet req1.approvers app.DeploymentName decoded.Slack.Approvers },
                           oga)

/-- Method `SlackRequester.GetName`. -/
def SlackRequester.GetName (req : SlackRequester) : String := req.Name

/-- The loop of `Run` over `req.approvers[match[1]]`: whether some approver resolves to
the ID of the sender, and the requester. -/
def matchApprover (sender : String) : List String → SlackRequester → Bool × SlackRequester
  | [], req => (false, req)
  | approver :: rest, req =>
      if sender = (getUserID req approver).1.1 then (true, (getUserID req approver).2)
      else matchApprover sender rest (getUserID req approver).2

/-- Call `fmt.Sprintf` for the profile of an approver. -/
def profileText (user : slack.User) : String :=
  "Username: " ++ user.Profile.DisplayName ++ ", Fullname: " ++ user.Profile.RealName ++
    ", Email: " ++ user.Profile.Email ++ "\n"

/-- The body of the `MessageEvent` case of `Run`. The variable `approver` read after the
loop is the one declared before it; the loop has its own variable of that name, so the
outer one keeps its zero value. -/
def handleMessage (req : SlackRequester) (oga : Interface) (ev : slack.MessageEvent) :
    Outcome (SlackRequester × Interface) :=
  if ev.User = req.userID then Outcome.done (req, oga)
  else if ev.User = "" then Outcome.done (req, oga)
  else
    match FindStringSubmatch ev.Text with
    | none => Outcome.done (req, oga)
    | some name =>
        let approver : String := ""
        let m := matchApprover ev.User ((mapGet req.approvers name).getD []) req
        if m.1 = true then
          match mapGet m.2.requestStore name with
          | none => Outcome.panic Panic.nilDereference
          | some approval =>
              let u := m.2.userCache.Get name
              let approval1 : Approval :=
                match u.1 with
                | some user => { approval with Approver := profileText user }
                | none => { approval with Approver := approver }
              if m.2.initializer = true then
                Outcome.done
                  ({ m.2 with
                      userCache := u.2
                      sent := m.2.sent ++
                        [("<@" ++ ev.User ++ "> " ++ name ++ " has been approved", ev.Channel)]
                      requestStore := mapDelete m.2.requestStore name
                      approvers := mapDelete m.2.approvers name },
                   oga.ApproveDeployment approval1)
              else Outcome.panic Panic.nilDereference
        else
          Outcome.done
            ({ m.2 with
                sent := m.2.sent ++
                  [("<@" ++ ev.User ++ "> you are not configured to approve *" ++ name ++ "*",
                    ev.Channel)] },
             oga)

/-- Method `SlackRequester.Run` on the events delivered by `rtm.IncomingEvents`. An
`InvalidAuthEvent` ends the process. -/
def Run : List slack.RTMEvent → SlackRequester → Interface → Outcome (SlackRequester × Interface)
  | [], req, oga => Outcome.done (req, oga)
  | slack.RTMEvent.Message ev :: rest, req, oga =>
      match handleMessage req oga ev with
      | Outcome.panic p => Outcome.panic p
      | Outcome.done (req1, oga1) => Run rest req1 oga1
  | slack.RTMEvent.RTMError _ :: rest, req, oga => Run rest req oga
  | slack.RTMEvent.InvalidAuthEvent :: _, req, oga => Outcome.done (req, oga)
  | slack.RTMEvent.Other :: rest, req, oga => Run rest req oga

end requester

/-! ## Vocabulary of the statements -/

/-- The deployment `d` with its `Initializers` field replaced. -/
def setInitializers (d : Deployment) (inits : Option metav1.Initializers) : Deployment :=
  { d with ObjectMeta := { d.ObjectMeta with Initializers := inits } }

/-- The initializer entry of the gate itself. -/
def ownInitializer (cfg : Config) : metav1.Initializer := { Name := cfg.initializerName }

/-- The object `initializeDeployment` builds when the own name is pending: the field is
cleared when the list has one entry, otherwise the first own entry is erased. -/
def removeOwn (cfg : Config) (inits : metav1.Initializers) (d : Deployment) : Deployment :=
  if inits.Pending.length = 1 then setInitializers d none
  else setInitializers d (some { inits with Pending := inits.Pending.erase (ownInitializer cfg) })

/-- The next `Update` call is answered with success. -/
def nextUpdateSucceeds : List UpdateReply → Bool
  | [] => true
  | UpdateReply.success :: _ => true
  | _ => false

/-- The gate after one `Update` of `d` that consumed one scripted reply. -/
def afterUpdate (oga : OgaInitializer) (d : Deployment) : OgaInitializer :=
  { oga with clientSet :=
      { reactions := oga.clientSet.reactions.tail,
        actions := oga.clientSet.actions ++ [Action.Update d.Namespace d] } }

/-- The gate after the update loop of `initializeDeployment` ran on `d`. -/
def afterLoop (oga : OgaInitializer) (d : Deployment) : OgaInitializer :=
  { oga with clientSet :=
      { reactions := (updateLoop oga.clientSet.reactions d oga.clientSet.actions).2.1,
        actions := (updateLoop oga.clientSet.reactions d oga.clientSet.actions).2.2 } }

/-- The error the update loop of `initializeDeployment` returns on `d`. -/
def loopError (oga : OgaInitializer) (d : Deployment) : Option String :=
  (updateLoop oga.clientSet.reactions d oga.clientSet.actions).1

/-- The deployments submitted with `Update`, in order. -/
def submitted : List Action → List Deployment
  | [] => []
  | Action.Update _ d :: rest => d :: submitted rest
  | Action.Get _ _ :: rest => submitted rest

/-- Encoding `m` succeeds and decoding the text gives back a map with the entries of `m`. -/
def RoundTrips {V : Type} (codec : YamlCodec V) (m : GoMap V) : Prop :=
  ∃ s, codec.Marshal m = some s ∧
    ∃ m1, codec.Unmarshal s = Decoded.value m1 ∧ ∀ k, mapGet m1 k = mapGet m k

/-- The gate ignores the deployment: `processDeployment` returns, nothing is put into the
store, `RequestApproval` is not called and no `Update` is submitted. -/
def Ignores {V : Type} (cfg : Config) (codec : YamlCodec V) (deployment : Deployment)
    (req : Requester) (oga : OgaInitializer) : Prop :=
  ∃ d1 req1 oga1,
    processDeployment cfg codec deployment req oga = Outcome.done (d1, req1, oga1) ∧
    oga1.store = oga.store ∧
    req1.received = req.received ∧
    submitted oga1.clientSet.actions = submitted oga.clientSet.actions

/-! ## Objects of the test files, used in the examples -/

/-- Function `NewDeployment` of fake_deployment.go. -/
def NewDeployment (name : String) : Deployment :=
  { ObjectMeta :=
      { Name := name, Namespace := "default", Annotations := some [], Initializers := none },
    Containers := [{ Image := "foo/bar" }, { Image := "bar/baz" }] }

/-- Test helper: the deployment with the given pending initializer names. -/
def withPending (d : Deployment) (names : List String) : Deployment :=
  setInitializers d (some { Pending := names.map metav1.Initializer.mk })

/-- Test helper: the deployment with the given annotations map. -/
def withAnnotations (d : Deployment) (annotations : GoMap String) : Deployment :=
  { d with ObjectMeta := { d.ObjectMeta with Annotations := some annotations } }

/-- The gate built in the tests: an empty store and a client without scripted replies. -/
def testGate : OgaInitializer :=
  { clientSet := { reactions := [], actions := [] }, store := NewDeploymentStore }

/-- The gate of the tests with the given scripted replies. -/
def scriptedGate (reactions : List UpdateReply) : OgaInitializer :=
  { clientSet := { reactions := reactions, actions := [] }, store := NewDeploymentStore }

/-- The gate of the tests after `store.put(d.Name, d)`. -/
def gateHolding (d : Deployment) : OgaInitializer :=
  { testGate with store := testGate.store.put d.Name d }

/-- Deployment foo of the tests carrying the approval annotation, with the given pending
initializer names. -/
def annotatedFoo (names : List String) : Deployment :=
  withAnnotations (withPending (NewDeployment "foo") names)
    [( defaultAnnotation, "channel: #baz\n")]

/-- Decoder of the example codec: one `key: value` pair per line. -/
def scanDoc : List Char → Option String → List Char → GoMap String → Option (GoMap String)
  | [], none, [], m => some m
  | [], _, _, _ => none
  | ':' :: ' ' :: cs, none, acc, m => scanDoc cs (some (String.mk acc)) [] m
  | '\n' :: cs, some k, acc, m => scanDoc cs none [] (mapSet m k (String.mk acc))
  | '\n' :: _, none, _, _ => none
  | c :: cs, k, acc, m => scanDoc cs k (acc ++ [c]) m

/-- Encoder of the example codec. -/
def printDoc : GoMap String → String
  | [] => ""
  | (k, v) :: rest => k ++ ": " ++ v ++ "\n" ++ printDoc rest

/-- A small codec for flat documents with string values, used in the examples. The empty
document is the null document. -/
def flatCodec : YamlCodec String :=
  { ofString := id
    Unmarshal := fun s =>
      if s = "" then Decoded.null
      else
        match scanDoc s.data none [] [] with
        | none => Decoded.failure
        | some m => Decoded.value m
    Marshal := fun m => some (printDoc m) }

/-! ## Objects of slack_requester_test.go and further examples -/

namespace requester

/-- The `FakeSlackClient` of the test file. -/
def FakeSlackClient : SlackClient :=
  { GetChannels := Except.ok [{ ID := "C7ALL3GP2", Name := "bar" }, { ID := "C7CCVMSTZ", Name := "foo" }]
    GetUsers := Except.ok
      [{ ID := "U7B832F2P", Profile := { DisplayName := "bjhaid", RealName := "bjhaid", Email := "" } },
       { ID := "U7B832F2P", Profile := { DisplayName := "foo", RealName := "foo", Email := "" } }]
    PostMessage := fun _ _ _ => none }

/-- A workspace with two people and a client whose `PostMessage` answers as given. -/
def exampleClient (postError : Option String) : SlackClient :=
  { GetChannels := Except.ok [{ ID := "C1", Name := "deploys" }]
    GetUsers := Except.ok
      [{ ID := "U1", Profile := { DisplayName := "alice", RealName := "Alice A", Email := "alice@example.com" } },
       { ID := "U2", Profile := { DisplayName := "foo", RealName := "Foo F", Email := "foo@example.com" } }]
    PostMessage := fun _ _ _ => postError }

/-- The `FakeInitializer` of the test file. -/
def FakeInitializer : Interface :=
  { GetDeployment := fun depName => some (NewDeployment depName), approved := [] }

/-- The requester built in `TestRequestApproval`, over the given client and with the given
ID of the bot. -/
def testRequester (api : SlackClient) (userID : String) : SlackRequester :=
  { Name := "slack", api := api, requestStore := [], userID := userID, initializer := false,
    approvers := [], userCache := lru.New slack.User 256,
    channelCache := lru.New slack.Channel 256, posted := [], sent := [] }

/-- Splitting of a comma separated list. -/
def splitOnComma : List Char → List Char → List String
  | acc, [] => if acc = [] then [] else [String.mk acc]
  | acc, c :: cs => if c = ',' then String.mk acc :: splitOnComma [] cs else splitOnComma (acc ++ [c]) cs

/-- A small decoder into the annotation structure for flat documents with the lines
`channel: name` and `approvers: a,b`, used in the examples. A missing line leaves the zero
value and the empty document is the null document. -/
def flatDecode (s : String) : Decoded Annotation :=
  if s = "" then Decoded.null
  else
    match scanDoc s.data none [] [] with
    | none => Decoded.failure
    | some m =>
        Decoded.value
          { Slack :=
              { Channel := (mapGet m "channel").getD ""
                Approvers := splitOnComma [] ((mapGet m "approvers").getD "").data } }

end requester


/-! ## Vocabulary of the statements on the store and the requester -/

/-- An operation on the store. -/
inductive StoreOp where
  | put (key : String) (value : Deployment)
  | deleteKey (key : String)
deriving DecidableEq, Repr

/-- The store after one operation. -/
def StoreOp.apply (store : DeploymentStore) : StoreOp → DeploymentStore
  | StoreOp.put key value => store.put key value
  | StoreOp.deleteKey key => store.deleteKey key

/-- The store after a sequence of operations. -/
def runStoreOps : List StoreOp → DeploymentStore → DeploymentStore
  | [], store => store
  | op :: rest, store => runStoreOps rest (StoreOp.apply store op)

/-- Whether the operation is a `put` on `key`. -/
def StoreOp.putsKey (key : String) : StoreOp → Bool
  | StoreOp.put k _ => decide (k = key)
  | StoreOp.deleteKey _ => false

/-- The number of entries a map holds for `key`. -/
def entriesFor {β : Type} (m : GoMap β) (key : String) : Nat :=
  (m.filter (fun p => decide (p.1 = key))).length

namespace requester

/-- The two requesters differ at most in their caches. -/
def SameButCaches (r1 r2 : SlackRequester) : Prop :=
  r2.Name = r1.Name ∧ r2.api = r1.api ∧ r2.requestStore = r1.requestStore ∧
  r2.userID = r1.userID ∧ r2.initializer = r1.initializer ∧ r2.approvers = r1.approvers ∧
  r2.posted = r1.posted ∧ r2.sent = r1.sent

/-- No channel of the workspace has the configured name and none is cached under it. -/
def ChannelUnknown (req : SlackRequester) (channel : String) : Prop :=
  mapGet req.channelCache.items (stringsReplaceOnce channel '#') = none ∧
  ∃ channels, req.api.GetChannels = Except.ok channels ∧
    ∀ cha ∈ channels, cha.Name ≠ stringsReplaceOnce channel '#'

/-- The requester right after the first statement of `RequestApproval`. -/
def withRequest (req : SlackRequester) (app : Approval) : SlackRequester :=
  { req with requestStore := mapSet req.requestStore app.DeploymentName app }

/-- The channel of the decoded configuration resolves, the gate knows the deployment, and
the `PostMessage` call that `RequestApproval` then makes is answered with an error. -/
def PostingFails (req : SlackRequester) (oga : Interface) (app : Approval)
    (decoded : Annotation) : Prop :=
  (getChannelID (withRequest req app) decoded.Slack.Channel).1.2 = none ∧
  ∃ deployment, oga.GetDeployment app.DeploymentName = some deployment ∧
    (req.api.PostMessage (getChannelID (withRequest req app) decoded.Slack.Channel).1.1
      (promptText
        (retrieveApproverIds (getChannelID (withRequest req app) decoded.Slack.Channel).2
          decoded.Slack.Approvers).1.1
        app.DeploymentName)
      (deployment.Containers.map (fun container => container.Image))).isSome = true

/-- The codec of the examples, except that the empty document decodes to the empty map. -/
def lenientCodec : YamlCodec String :=
  { flatCodec with
    Unmarshal := fun s =>
      match scanDoc s.data none [] [] with
      | none => Decoded.failure
      | some m => Decoded.value m }

/-- The requester after `RequestApproval` has resolved the channel and the approvers and
called `PostMessage` for the deployment the gate returned. -/
def afterPost (req : SlackRequester) (app : Approval) (decoded : Annotation)
    (deployment : Deployment) : SlackRequester :=
  { (retrieveApproverIds (getChannelID (withRequest req app) decoded.Slack.Channel).2
        decoded.Slack.Approvers).2 with
    posted :=
      (retrieveApproverIds (getChannelID (withRequest req app) decoded.Slack.Channel).2
        decoded.Slack.Approvers).2.posted ++
      [((getChannelID (withRequest req app) decoded.Slack.Channel).1.1,
        promptText
          (retrieveApproverIds (getChannelID (withRequest req app) decoded.Slack.Channel).2
            decoded.Slack.Approvers).1.1
          app.DeploymentName,
        deployment.Containers.map (fun container => container.Image))] }

/-- The requester after the last three statements of `RequestApproval`. -/
def afterRecord (req : SlackRequester) (app : Approval) (decoded : Annotation)
    (deployment : Deployment) : SlackRequester :=
  { afterPost req app decoded deployment with
    requestStore :=
      mapSet (afterPost req app decoded deployment).requestStore app.DeploymentName app
    initializer := true
    approvers :=
      mapSet (afterPost req app decoded deployment).approvers app.DeploymentName
        decoded.Slack.Approvers }

/-- The `PostMessage` call `RequestApproval` makes is answered without error. -/
def PostingSucceeds (req : SlackRequester) (app : Approval) (decoded : Annotation)
    (deployment : Deployment) : Prop :=
  req.api.PostMessage (getChannelID (withRequest req app) decoded.Slack.Channel).1.1
    (promptText
      (retrieveApproverIds (getChannelID (withRequest req app) decoded.Slack.Channel).2
        decoded.Slack.Approvers).1.1
      app.DeploymentName)
    (deployment.Containers.map (fun container => container.Image)) = none

/-- The approval `processDeployment` hands to the requester for deployment foo. -/
def fooApproval : Approval := { Approver := "", DeploymentName := "foo", RequesterName := "slack" }

/-- The requester of the example workspace, with bot ID UBOT, after a `RequestApproval`
for the named deployment on channel deploys that ended with the prompt posted. -/
def waitingRequester (name : String) (approvers : List String) : SlackRequester :=
  afterRecord (testRequester (exampleClient none) "UBOT")
    { Approver := "", DeploymentName := name, RequesterName := "slack" }
    { Slack := { Channel := "#deploys", Approvers := approvers } } (NewDeployment name)

/-- The IDs to which the approvers resolve, one `getUserID` call after the other as in the
loop of `Run`; an approver that does not resolve gives the empty ID. -/
def resolveAll : List String → SlackRequester → List String
  | [], _ => []
  | approver :: rest, req =>
      (getUserID req approver).1.1 :: resolveAll rest (getUserID req approver).2

/-- The requester `waitingRequester "web" ["@alice"]` after the approval of alice has been
handled. -/
def approvedWeb : SlackRequester :=
  { waitingRequester "web" ["@alice"] with
    sent := [("<@U1> web has been approved", "C1")]
    requestStore := []
    approvers := [] }

end requester


/-- A configuration whose annotation flag is not the default. -/
def flaggedConfig : Config :=
  { annotation := "example.com/approval", initializerName := defaultInitializerName }

/-- Deployment foo of the tests, pending under the default initializer name and carrying
its approval payload under the key of `flaggedConfig`. -/
def flaggedFoo : Deployment :=
  withAnnotations (withPending (NewDeployment "foo") [defaultInitializerName])
    [("example.com/approval", "channel: #baz\n")]


namespace requester

/-- The requester of the tests whose channel cache still holds a channel that the
workspace no longer has. -/
def staleRequester : SlackRequester :=
  { testRequester FakeSlackClient "" with
    channelCache := { size := 256, items := [("gone", { ID := "C9GONE", Name := "gone" })] } }

end requester


end Oga

namespace Oga

open v1beta1 (Deployment)

/-! ## Lemmas on Go maps -/

theorem mapGet_mapDelete_self {β : Type} (m : GoMap β) (k : String) :
    mapGet (mapDelete m k) k = none := by
  induction m with
  | nil => rfl
  | cons p rest ih =>
    obtain ⟨k1, v⟩ := p
    by_cases h : k1 = k
    · simp [mapDelete, h, ih]
    · simp [mapDelete, mapGet, h, ih]

theorem mapGet_mapDelete_ne {β : Type} (m : GoMap β) (k k1 : String) (h : k1 ≠ k) :
    mapGet (mapDelete m k) k1 = mapGet m k1 := by
  induction m with
  | nil => rfl
  | cons p rest ih =>
    obtain ⟨k2, v⟩ := p
    by_cases h2 : k2 = k
    · have h3 : ¬ k2 = k1 := fun e => h (e.symm.trans h2)
      simp only [mapDelete, mapGet, if_pos h2, if_neg h3, ih]
    · by_cases h3 : k2 = k1
      · simp only [mapDelete, mapGet, if_neg h2, if_pos h3]
      · simp only [mapDelete, mapGet, if_neg h2, if_neg h3, ih]

theorem mapGet_mapSet_self {β : Type} (m : GoMap β) (k : String) (v : β) :
    mapGet (mapSet m k v) k = some v := by
  simp [mapSet, mapGet]

theorem mapGet_mapSet_ne {β : Type} (m : GoMap β) (k k1 : String) (v : β) (h : k1 ≠ k) :
    mapGet (mapSet m k v) k1 = mapGet m k1 := by
  have h2 : ¬ k = k1 := fun e => h e.symm
  simp [mapSet, mapGet, h2, mapGet_mapDelete_ne m k k1 h]

/-! ## Lemmas on the loops of initializeDeployment -/

theorem name_eq_iff (cfg : Config) (p : metav1.Initializer) :
    cfg.initializerName = p.Name ↔ p = ownInitializer cfg := by
  cases p
  simp [ownInitializer, eq_comm]

theorem rangeLoop_not_mem (cfg : Config) (pending : List metav1.Initializer)
    (inits : metav1.Initializers) (d : Deployment) (oga : OgaInitializer) :
    ∀ (rest : List metav1.Initializer) (i : Nat), ownInitializer cfg ∉ rest →
      rangeLoop cfg pending inits d oga rest i = (none, d, oga) := by
  intro rest
  induction rest with
  | nil => intro i _; rfl
  | cons p rest ih =>
    intro i hmem
    have hp : ¬ cfg.initializerName = p.Name := by
      rw [name_eq_iff]
      intro e
      exact hmem (by simp [e])
    have hrest : ownInitializer cfg ∉ rest := fun h => hmem (List.mem_cons_of_mem _ h)
    simp only [rangeLoop, hp, if_false]
    exact ih (i + 1) hrest

theorem rangeLoop_mem (cfg : Config) (inits : metav1.Initializers) (d : Deployment)
    (oga : OgaInitializer) :
    ∀ (rest pre : List metav1.Initializer), ownInitializer cfg ∉ pre →
      ownInitializer cfg ∈ rest → inits.Pending = pre ++ rest →
      rangeLoop cfg inits.Pending inits d oga rest pre.length =
        (loopError oga (removeOwn cfg inits d), removeOwn cfg inits d,
         afterLoop oga (removeOwn cfg inits d)) := by
  intro rest
  induction rest with
  | nil => intro pre _ hmem _; simp at hmem
  | cons p rest ih =>
    intro pre hpre hmem hsplit
    by_cases hp : cfg.initializerName = p.Name
    · have hp2 : p = ownInitializer cfg := (name_eq_iff cfg p).1 hp
      have herase : inits.Pending.erase (ownInitializer cfg) = pre ++ rest := by
        rw [hsplit, List.erase_append_right _ hpre, hp2, List.erase_cons_head]
      have htake : inits.Pending.take pre.length ++ inits.Pending.drop (pre.length + 1)
          = pre ++ rest := by
        rw [hsplit]
        simp
      have hmut : (if inits.Pending.length = 1 then
            ({ d with ObjectMeta := { d.ObjectMeta with Initializers := none } } : Deployment)
          else
            { d with ObjectMeta := { d.ObjectMeta with
                Initializers := some { inits with
                  Pending := inits.Pending.take pre.length ++
                    inits.Pending.drop (pre.length + 1) } } }) = removeOwn cfg inits d := by
        rw [htake, removeOwn, herase]
        rfl
      simp only [rangeLoop, hp, if_true]
      rw [hmut]
      rfl
    · have hp2 : ¬ p = ownInitializer cfg := fun e => hp ((name_eq_iff cfg p).2 e)
      have hrest : ownInitializer cfg ∈ rest := by
        rcases List.mem_cons.1 hmem with h | h
        · exact absurd h.symm hp2
        · exact h
      have hpre2 : ownInitializer cfg ∉ pre ++ [p] := by
        simp only [List.mem_append, List.mem_singleton, not_or]
        exact ⟨hpre, fun e => hp2 e.symm⟩
      have hsplit2 : inits.Pending = (pre ++ [p]) ++ rest := by
        rw [hsplit]; simp
      have := ih (pre ++ [p]) hpre2 hrest hsplit2
      simp only [List.length_append, List.length_singleton] at this
      simp only [rangeLoop, hp, if_false]
      exact this

/-- What `initializeDeployment` computes on a deployment whose `Initializers` field is
present. -/
theorem initializeDeployment_eq (cfg : Config) (d : Deployment) (inits : metav1.Initializers)
    (oga : OgaInitializer) (hinits : d.ObjectMeta.Initializers = some inits) :
    initializeDeployment cfg d oga =
      Outcome.done
        (if ownInitializer cfg ∈ inits.Pending then
          (loopError oga (removeOwn cfg inits d), removeOwn cfg inits d,
           afterLoop oga (removeOwn cfg inits d))
        else (none, d, oga)) := by
  unfold initializeDeployment
  simp only [Deployment.GetInitializers, hinits]
  by_cases hmem : ownInitializer cfg ∈ inits.Pending
  · rw [if_pos hmem]
    have := rangeLoop_mem cfg inits d oga inits.Pending [] (by simp) hmem (by simp)
    simpa using this
  · rw [if_neg hmem, rangeLoop_not_mem cfg inits.Pending inits d oga inits.Pending 0 hmem]

theorem submitted_append (xs ys : List Action) :
    submitted (xs ++ ys) = submitted xs ++ submitted ys := by
  induction xs with
  | nil => rfl
  | cons a rest ih =>
    cases a with
    | Update ns d => simp [submitted, ih]
    | Get ns name => simp [submitted, ih]

theorem submitted_append_update (xs : List Action) (ns : String) (d : Deployment) :
    submitted (xs ++ [Action.Update ns d]) = submitted xs ++ [d] := by
  rw [submitted_append]
  rfl

theorem initializeDeployment_nil (cfg : Config) (d : Deployment) (oga : OgaInitializer)
    (hinits : d.ObjectMeta.Initializers = none) :
    initializeDeployment cfg d oga = Outcome.panic Panic.nilDereference := by
  unfold initializeDeployment
  simp only [Deployment.GetInitializers, hinits]

theorem updateLoop_succeeds (reactions : List UpdateReply) (d : Deployment)
    (actions : List Action) (h : nextUpdateSucceeds reactions = true) :
    updateLoop reactions d actions =
      (none, reactions.tail, actions ++ [Action.Update d.Namespace d]) := by
  cases reactions with
  | nil => rfl
  | cons r rest =>
    cases r with
    | success => rfl
    | conflict latest => simp [nextUpdateSucceeds] at h
    | failure err => simp [nextUpdateSucceeds] at h

theorem updateLoop_failure (err : String) (rest : List UpdateReply) (d : Deployment)
    (actions : List Action) :
    updateLoop (UpdateReply.failure err :: rest) d actions =
      (some err, rest, actions ++ [Action.Update d.Namespace d]) := rfl

theorem updateLoop_conflict (latest : Deployment) (rest : List UpdateReply) (d : Deployment)
    (actions : List Action) :
    updateLoop (UpdateReply.conflict latest :: rest) d actions =
      updateLoop rest latest
        (actions ++ [Action.Update d.Namespace d, Action.Get d.Namespace d.Name]) := rfl

theorem updateLoop_first_action :
    ∀ (reactions : List UpdateReply) (d : Deployment) (actions : List Action),
      ∃ more, (updateLoop reactions d actions).2.2 =
        actions ++ Action.Update d.Namespace d :: more := by
  intro reactions
  induction reactions with
  | nil => intro d actions; exact ⟨[], rfl⟩
  | cons r rest ih =>
    intro d actions
    cases r with
    | success => exact ⟨[], rfl⟩
    | failure err => exact ⟨[], rfl⟩
    | conflict latest =>
      obtain ⟨more, hmore⟩ := ih latest
        (actions ++ [Action.Update d.Namespace d, Action.Get d.Namespace d.Name])
      refine ⟨Action.Get d.Namespace d.Name :: Action.Update latest.Namespace latest :: more, ?_⟩
      rw [updateLoop_conflict, hmore]
      simp

theorem initializeDeployment_store (cfg : Config) (d d1 : Deployment) (oga oga1 : OgaInitializer)
    (err : Option String)
    (h : initializeDeployment cfg d oga = Outcome.done (err, d1, oga1)) :
    oga1.store = oga.store := by
  cases hinits : d.ObjectMeta.Initializers with
  | none => rw [initializeDeployment_nil cfg d oga hinits] at h; cases h
  | some inits =>
    rw [initializeDeployment_eq cfg d inits oga hinits] at h
    by_cases hmem : ownInitializer cfg ∈ inits.Pending
    · rw [if_pos hmem] at h
      cases h
      rfl
    · rw [if_neg hmem] at h
      cases h
      rfl

theorem removeOwn_annotations (cfg : Config) (inits : metav1.Initializers) (d : Deployment) :
    (removeOwn cfg inits d).ObjectMeta.Annotations = d.ObjectMeta.Annotations := by
  unfold removeOwn
  split <;> rfl

theorem initializeDeployment_annotations (cfg : Config) (d d1 : Deployment)
    (oga oga1 : OgaInitializer) (err : Option String)
    (h : initializeDeployment cfg d oga = Outcome.done (err, d1, oga1)) :
    d1.ObjectMeta.Annotations = d.ObjectMeta.Annotations := by
  cases hinits : d.ObjectMeta.Initializers with
  | none => rw [initializeDeployment_nil cfg d oga hinits] at h; cases h
  | some inits =>
    rw [initializeDeployment_eq cfg d inits oga hinits] at h
    by_cases hmem : ownInitializer cfg ∈ inits.Pending
    · rw [if_pos hmem] at h
      cases h
      exact removeOwn_annotations cfg inits d
    · rw [if_neg hmem] at h
      cases h
      rfl

theorem initializeDeployment_returns (cfg : Config) (d : Deployment) (oga : OgaInitializer)
    (h : d.ObjectMeta.Initializers ≠ none) :
    ∃ err d1 oga1, initializeDeployment cfg d oga = Outcome.done (err, d1, oga1) := by
  cases hinits : d.ObjectMeta.Initializers with
  | none => exact absurd hinits h
  | some inits => exact ⟨_, _, _, initializeDeployment_eq cfg d inits oga hinits⟩

theorem pendingOf_removeOwn (cfg : Config) (inits : metav1.Initializers) (d : Deployment)
    (hinits : d.ObjectMeta.Initializers = some inits)
    (hown : ownInitializer cfg ∈ inits.Pending) :
    pendingOf (removeOwn cfg inits d) = (pendingOf d).erase (ownInitializer cfg) := by
  have hp : pendingOf d = inits.Pending := by simp [pendingOf, hinits]
  rw [hp]
  unfold removeOwn
  split
  · rename_i hlen
    obtain ⟨x, hx⟩ := List.length_eq_one.1 hlen
    rw [hx] at hown
    have hx2 : ownInitializer cfg = x := by simpa using hown
    rw [hx, ← hx2, List.erase_cons_head]
    rfl
  · rfl

theorem enrichAnnotation_initializers {V : Type} (codec : YamlCodec V) (approval : Approval)
    (d e : Deployment) (h : enrichAnnotation codec approval d = Outcome.done e) :
    e.ObjectMeta.Initializers = d.ObjectMeta.Initializers := by
  unfold enrichAnnotation at h
  split at h
  · cases h; rfl
  · cases h
  · split at h
    · cases h; rfl
    · split at h
      · cases h
      · cases h; rfl

theorem enrichAnnotation_returns {V : Type} (codec : YamlCodec V) (approval : Approval)
    (d : Deployment) (hann : d.ObjectMeta.Annotations ≠ none)
    (hnull : codec.Unmarshal (annotationValue d.ObjectMeta.Annotations defaultAnnotation) ≠
      Decoded.null) :
    ∃ e, enrichAnnotation codec approval d = Outcome.done e := by
  unfold enrichAnnotation
  split
  · exact ⟨_, rfl⟩
  · rename_i hn
    exact absurd hn hnull
  · split
    · exact ⟨_, rfl⟩
    · split
      · rename_i hnil
        exact absurd hnil hann
      · exact ⟨_, rfl⟩

theorem store_get_deleteKey_self (store : DeploymentStore) (k : String) :
    (store.deleteKey k).get k = none :=
  mapGet_mapDelete_self store.table k

theorem store_get_deleteKey_ne (store : DeploymentStore) (k k1 : String) (h : k1 ≠ k) :
    (store.deleteKey k).get k1 = store.get k1 :=
  mapGet_mapDelete_ne store.table k k1 h

theorem store_get_put_self (store : DeploymentStore) (k : String) (d : Deployment) :
    (store.put k d).get k = some d :=
  mapGet_mapSet_self store.table k d

theorem store_get_put_ne (store : DeploymentStore) (k k1 : String) (d : Deployment)
    (h : k1 ≠ k) : (store.put k d).get k1 = store.get k1 :=
  mapGet_mapSet_ne store.table k k1 d h

/-- Where marker removal is idempotent: on a deployment whose `Initializers` field is
present, with at most one own entry and a pending list other than the own name alone,
both calls return and the second call changes neither the deployment nor the gate. -/
theorem initializeDeployment_idempotent_while_present (cfg : Config) (d : Deployment)
    (inits : metav1.Initializers) (oga : OgaInitializer)
    (hinits : d.ObjectMeta.Initializers = some inits)
    (hcount : inits.Pending.count (ownInitializer cfg) ≤ 1)
    (hnot : inits.Pending ≠ [ownInitializer cfg]) :
    ∃ err d1 oga1,
      initializeDeployment cfg d oga = Outcome.done (err, d1, oga1) ∧
      initializeDeployment cfg d1 oga1 = Outcome.done (none, d1, oga1) := by
  have hfirst := initializeDeployment_eq cfg d inits oga hinits
  by_cases hown : ownInitializer cfg ∈ inits.Pending
  · rw [if_pos hown] at hfirst
    have hlen : ¬ inits.Pending.length = 1 := by
      intro hlen
      obtain ⟨x, hx⟩ := List.length_eq_one.1 hlen
      rw [hx] at hown
      have hx2 : ownInitializer cfg = x := by simpa using hown
      exact hnot (by rw [hx, hx2])
    have hgone : ownInitializer cfg ∉ inits.Pending.erase (ownInitializer cfg) := by
      apply List.count_eq_zero.1
      rw [List.count_erase_self]
      omega
    have hrem : removeOwn cfg inits d =
        setInitializers d
          (some { inits with Pending := inits.Pending.erase (ownInitializer cfg) }) := by
      rw [removeOwn, if_neg hlen]
    refine ⟨_, _, _, hfirst, ?_⟩
    have hsecond := initializeDeployment_eq cfg (removeOwn cfg inits d)
      { inits with Pending := inits.Pending.erase (ownInitializer cfg) }
      (afterLoop oga (removeOwn cfg inits d)) (by rw [hrem]; rfl)
    rw [if_neg hgone] at hsecond
    exact hsecond
  · rw [if_neg hown] at hfirst
    refine ⟨_, _, _, hfirst, ?_⟩
    have hsecond := initializeDeployment_eq cfg d inits oga hinits
    rw [if_neg hown] at hsecond
    exact hsecond

/-! ## Marker removal -/

/-- C1: when the pending list has at least two entries and contains the own initializer
name, and the Update call succeeds, initializeDeployment returns no error and leaves the
pending list equal to the original with the first own entry removed: the list splits as
`pre ++ own :: post` with no own entry in `pre`, and becomes `pre ++ post`. The object
is submitted with one Update and the store is not touched. -/
theorem initializeDeployment_removes_first_own (cfg : Config) (deployment : Deployment)
    (inits : metav1.Initializers) (oga : OgaInitializer)
    (hinits : deployment.ObjectMeta.Initializers = some inits)
    (hlen : 2 ≤ inits.Pending.length)
    (hown : ownInitializer cfg ∈ inits.Pending)
    (hupdate : nextUpdateSucceeds oga.clientSet.reactions = true) :
    ∃ pre post oga1,
      inits.Pending = pre ++ ownInitializer cfg :: post ∧
      ownInitializer cfg ∉ pre ∧
      pre ++ post = inits.Pending.erase (ownInitializer cfg) ∧
      initializeDeployment cfg deployment oga =
        Outcome.done
          (none, setInitializers deployment (some { inits with Pending := pre ++ post }), oga1) ∧
      oga1.store = oga.store ∧
      oga1.clientSet.actions = oga.clientSet.actions ++
        [Action.Update deployment.Namespace
          (setInitializers deployment (some { inits with Pending := pre ++ post }))] := by
  obtain ⟨pre, post, hsplit, hpre⟩ := List.eq_append_cons_of_mem hown
  have herase : pre ++ post = inits.Pending.erase (ownInitializer cfg) := by
    rw [hsplit, List.erase_append_right _ hpre, List.erase_cons_head]
  have hne : ¬ inits.Pending.length = 1 := by omega
  have hrem : removeOwn cfg inits deployment =
      setInitializers deployment (some { inits with Pending := pre ++ post }) := by
    rw [removeOwn, if_neg hne, herase]
  refine ⟨pre, post, afterUpdate oga (removeOwn cfg inits deployment),
    hsplit, hpre, herase, ?_, rfl, ?_⟩
  · rw [initializeDeployment_eq cfg deployment inits oga hinits, if_pos hown,
      loopError, afterLoop, updateLoop_succeeds _ _ _ hupdate, hrem]
    rfl
  · rw [hrem]
    rfl

/-- Witness of C1 on the deployment of TestInitializeDeployment: the pending list
dummyInitializer.k8s.io, own, bar.foo.com becomes dummyInitializer.k8s.io, bar.foo.com. -/
theorem initializeDeployment_removes_first_own_witness :
    (∃ pre post oga1,
      ["dummyInitializer.k8s.io", defaultInitializerName, "bar.foo.com"].map
          metav1.Initializer.mk = pre ++ ownInitializer defaultConfig :: post ∧
      ownInitializer defaultConfig ∉ pre ∧
      pre ++ post =
        (["dummyInitializer.k8s.io", defaultInitializerName, "bar.foo.com"].map
          metav1.Initializer.mk).erase (ownInitializer defaultConfig) ∧
      initializeDeployment defaultConfig
          (withPending (NewDeployment "foo")
            ["dummyInitializer.k8s.io", defaultInitializerName, "bar.foo.com"]) testGate =
        Outcome.done
          (none, setInitializers
            (withPending (NewDeployment "foo")
              ["dummyInitializer.k8s.io", defaultInitializerName, "bar.foo.com"])
            (some { Pending := pre ++ post }), oga1) ∧
      oga1.store = testGate.store ∧
      oga1.clientSet.actions = testGate.clientSet.actions ++
        [Action.Update "default"
          (setInitializers
            (withPending (NewDeployment "foo")
              ["dummyInitializer.k8s.io", defaultInitializerName, "bar.foo.com"])
            (some { Pending := pre ++ post }))]) ∧
    initializeDeployment defaultConfig
        (withPending (NewDeployment "foo")
          ["dummyInitializer.k8s.io", defaultInitializerName, "bar.foo.com"]) testGate =
      Outcome.done
        (none, withPending (NewDeployment "foo") ["dummyInitializer.k8s.io", "bar.foo.com"],
         afterUpdate testGate
          (withPending (NewDeployment "foo") ["dummyInitializer.k8s.io", "bar.foo.com"])) :=
  ⟨initializeDeployment_removes_first_own defaultConfig
    (withPending (NewDeployment "foo")
      ["dummyInitializer.k8s.io", defaultInitializerName, "bar.foo.com"])
    { Pending := ["dummyInitializer.k8s.io", defaultInitializerName, "bar.foo.com"].map
        metav1.Initializer.mk }
    testGate rfl (by decide) (by decide) rfl, by decide⟩

/-- C2: when the pending list is exactly the own initializer name and the Update call
succeeds, initializeDeployment returns no error and leaves the Initializers field nil, not
a present structure with an empty list; the object submitted to Update is that object. -/
theorem initializeDeployment_only_own_clears_field (cfg : Config) (deployment : Deployment)
    (inits : metav1.Initializers) (oga : OgaInitializer)
    (hinits : deployment.ObjectMeta.Initializers = some inits)
    (honly : inits.Pending = [ownInitializer cfg])
    (hupdate : nextUpdateSucceeds oga.clientSet.reactions = true) :
    ∃ d1 oga1,
      initializeDeployment cfg deployment oga = Outcome.done (none, d1, oga1) ∧
      d1.ObjectMeta.Initializers = none ∧
      d1 = setInitializers deployment none ∧
      oga1.clientSet.actions = oga.clientSet.actions ++ [Action.Update d1.Namespace d1] ∧
      submitted oga1.clientSet.actions = submitted oga.clientSet.actions ++ [d1] ∧
      oga1.store = oga.store := by
  have hown : ownInitializer cfg ∈ inits.Pending := by rw [honly]; simp
  have hlen : inits.Pending.length = 1 := by rw [honly]; rfl
  have hrem : removeOwn cfg inits deployment = setInitializers deployment none := by
    rw [removeOwn, if_pos hlen]
  refine ⟨setInitializers deployment none, afterUpdate oga (setInitializers deployment none),
    ?_, rfl, rfl, rfl, ?_, rfl⟩
  · rw [initializeDeployment_eq cfg deployment inits oga hinits, if_pos hown,
      loopError, afterLoop, updateLoop_succeeds _ _ _ hupdate, hrem]
    rfl
  · exact submitted_append_update _ _ _

/-- Witness of C2 on deployment foo holding only the default initializer name. -/
theorem initializeDeployment_only_own_clears_field_witness :
    ∃ d1 oga1,
      initializeDeployment defaultConfig
          (withPending (NewDeployment "foo") [defaultInitializerName]) testGate =
        Outcome.done (none, d1, oga1) ∧
      d1.ObjectMeta.Initializers = none ∧
      d1 = setInitializers (withPending (NewDeployment "foo") [defaultInitializerName]) none ∧
      oga1.clientSet.actions = testGate.clientSet.actions ++ [Action.Update d1.Namespace d1] ∧
      submitted oga1.clientSet.actions = submitted testGate.clientSet.actions ++ [d1] ∧
      oga1.store = testGate.store :=
  initializeDeployment_only_own_clears_field defaultConfig
    (withPending (NewDeployment "foo") [defaultInitializerName])
    { Pending := [ownInitializer defaultConfig] } testGate rfl rfl rfl

/-- C3: marker removal is not idempotent on the deployments the claim singles out. On a
deployment with no initializers at all (nil field) the first call dereferences nil and
panics. On a deployment whose only initializer is the own name the first call returns
and clears the field, whatever the Update call answers, and the second call panics. -/
theorem initializeDeployment_second_call_panics (cfg : Config) (oga : OgaInitializer) :
    (∀ deployment : Deployment, deployment.ObjectMeta.Initializers = none →
      initializeDeployment cfg deployment oga = Outcome.panic Panic.nilDereference) ∧
    (∀ (deployment : Deployment) (inits : metav1.Initializers),
      deployment.ObjectMeta.Initializers = some inits →
      inits.Pending = [ownInitializer cfg] →
      ∃ err d1 oga1,
        initializeDeployment cfg deployment oga = Outcome.done (err, d1, oga1) ∧
        d1.ObjectMeta.Initializers = none ∧
        initializeDeployment cfg d1 oga1 = Outcome.panic Panic.nilDereference) := by
  refine ⟨fun deployment h => initializeDeployment_nil cfg deployment oga h, ?_⟩
  intro deployment inits hinits honly
  have hown : ownInitializer cfg ∈ inits.Pending := by rw [honly]; simp
  have hlen : inits.Pending.length = 1 := by rw [honly]; rfl
  have hrem : removeOwn cfg inits deployment = setInitializers deployment none := by
    rw [removeOwn, if_pos hlen]
  refine ⟨loopError oga (removeOwn cfg inits deployment), removeOwn cfg inits deployment,
    afterLoop oga (removeOwn cfg inits deployment), ?_, ?_, ?_⟩
  · rw [initializeDeployment_eq cfg deployment inits oga hinits, if_pos hown]
  · rw [hrem]; rfl
  · apply initializeDeployment_nil
    rw [hrem]; rfl

/-- Evaluation of C3 on deployment foo: without initializers the first call panics; with
only the default initializer name the second call panics. -/
theorem initializeDeployment_second_call_panics_witness :
    initializeDeployment defaultConfig (NewDeployment "foo") testGate =
      Outcome.panic Panic.nilDereference ∧
    ∃ err d1 oga1,
      initializeDeployment defaultConfig
          (withPending (NewDeployment "foo") [defaultInitializerName]) testGate =
        Outcome.done (err, d1, oga1) ∧
      d1.ObjectMeta.Initializers = none ∧
      initializeDeployment defaultConfig d1 oga1 = Outcome.panic Panic.nilDereference :=
  ⟨(initializeDeployment_second_call_panics defaultConfig testGate).1
      (NewDeployment "foo") rfl,
   (initializeDeployment_second_call_panics defaultConfig testGate).2
      (withPending (NewDeployment "foo") [defaultInitializerName])
      { Pending := [ownInitializer defaultConfig] } rfl rfl⟩

/-- C7: the conflict retry does not recompute the removal. When the first Update is
answered with a conflict, initializeDeployment fetches the latest version and submits it
as fetched: the submitted objects are the mutated original and then the fetched copy
itself, so a fetched copy that lists the own initializer is submitted listing it. -/
theorem initializeDeployment_conflict_resubmits_fetched (cfg : Config)
    (deployment latest : Deployment) (inits : metav1.Initializers)
    (rest : List UpdateReply) (oga : OgaInitializer)
    (hinits : deployment.ObjectMeta.Initializers = some inits)
    (hown : ownInitializer cfg ∈ inits.Pending)
    (hscript : oga.clientSet.reactions = UpdateReply.conflict latest :: rest)
    (hnext : nextUpdateSucceeds rest = true) :
    ∃ oga1,
      initializeDeployment cfg deployment oga =
        Outcome.done (none, removeOwn cfg inits deployment, oga1) ∧
      oga1.clientSet.actions = oga.clientSet.actions ++
        [Action.Update deployment.Namespace (removeOwn cfg inits deployment),
         Action.Get deployment.Namespace deployment.Name,
         Action.Update latest.Namespace latest] ∧
      submitted oga1.clientSet.actions =
        submitted oga.clientSet.actions ++ [removeOwn cfg inits deployment, latest] ∧
      (ownInitializer cfg ∈ pendingOf latest →
        ∃ d ∈ submitted oga1.clientSet.actions, ownInitializer cfg ∈ pendingOf d) := by
  have hloop : updateLoop oga.clientSet.reactions (removeOwn cfg inits deployment)
      oga.clientSet.actions =
      (none, rest.tail, (oga.clientSet.actions ++
        [Action.Update (removeOwn cfg inits deployment).Namespace
            (removeOwn cfg inits deployment),
         Action.Get (removeOwn cfg inits deployment).Namespace
            (removeOwn cfg inits deployment).Name]) ++
        [Action.Update latest.Namespace latest]) := by
    rw [hscript, updateLoop_conflict, updateLoop_succeeds _ _ _ hnext]
  have hns : (removeOwn cfg inits deployment).Namespace = deployment.Namespace := by
    unfold removeOwn; split <;> rfl
  have hname : (removeOwn cfg inits deployment).Name = deployment.Name := by
    unfold removeOwn; split <;> rfl
  have hsub : submitted (oga.clientSet.actions ++
        [Action.Update deployment.Namespace (removeOwn cfg inits deployment),
         Action.Get deployment.Namespace deployment.Name,
         Action.Update latest.Namespace latest]) =
      submitted oga.clientSet.actions ++ [removeOwn cfg inits deployment, latest] := by
    rw [submitted_append]; rfl
  refine ⟨{ oga with clientSet :=
      { reactions := rest.tail,
        actions := oga.clientSet.actions ++
          [Action.Update deployment.Namespace (removeOwn cfg inits deployment),
           Action.Get deployment.Namespace deployment.Name,
           Action.Update latest.Namespace latest] } }, ?_, rfl, hsub, ?_⟩
  · rw [initializeDeployment_eq cfg deployment inits oga hinits, if_pos hown, loopError,
      afterLoop, hloop, hns, hname]
    simp
  · intro hlatest
    refine ⟨latest, ?_, hlatest⟩
    show latest ∈ submitted (oga.clientSet.actions ++ _)
    rw [hsub]
    simp

/-- Evaluation of C7 on deployment foo with pending list dummy, own: the first Update
meets a conflict, the fetched copy still lists the own name and is submitted as is. -/
theorem initializeDeployment_conflict_resubmits_fetched_witness :
    ownInitializer defaultConfig ∈
      pendingOf (withPending (NewDeployment "foo")
        ["dummyInitializer.k8s.io", defaultInitializerName, "late.k8s.io"]) ∧
    ∃ oga1,
      initializeDeployment defaultConfig
          (withPending (NewDeployment "foo")
            ["dummyInitializer.k8s.io", defaultInitializerName])
          (scriptedGate [UpdateReply.conflict (withPending (NewDeployment "foo")
            ["dummyInitializer.k8s.io", defaultInitializerName, "late.k8s.io"])]) =
        Outcome.done (none,
          removeOwn defaultConfig
            { Pending := ["dummyInitializer.k8s.io", defaultInitializerName].map
                metav1.Initializer.mk }
            (withPending (NewDeployment "foo")
              ["dummyInitializer.k8s.io", defaultInitializerName]), oga1) ∧
      oga1.clientSet.actions = [] ++
        [Action.Update "default"
          (removeOwn defaultConfig
            { Pending := ["dummyInitializer.k8s.io", defaultInitializerName].map
                metav1.Initializer.mk }
            (withPending (NewDeployment "foo")
              ["dummyInitializer.k8s.io", defaultInitializerName])),
         Action.Get "default" "foo",
         Action.Update "default" (withPending (NewDeployment "foo")
            ["dummyInitializer.k8s.io", defaultInitializerName, "late.k8s.io"])] ∧
      submitted oga1.clientSet.actions = [] ++
        [removeOwn defaultConfig
            { Pending := ["dummyInitializer.k8s.io", defaultInitializerName].map
                metav1.Initializer.mk }
            (withPending (NewDeployment "foo")
              ["dummyInitializer.k8s.io", defaultInitializerName]),
         withPending (NewDeployment "foo")
            ["dummyInitializer.k8s.io", defaultInitializerName, "late.k8s.io"]] ∧
      (ownInitializer defaultConfig ∈
          pendingOf (withPending (NewDeployment "foo")
            ["dummyInitializer.k8s.io", defaultInitializerName, "late.k8s.io"]) →
        ∃ d ∈ submitted oga1.clientSet.actions, ownInitializer defaultConfig ∈ pendingOf d) :=
  ⟨by decide,
   initializeDeployment_conflict_resubmits_fetched defaultConfig
    (withPending (NewDeployment "foo") ["dummyInitializer.k8s.io", defaultInitializerName])
    (withPending (NewDeployment "foo")
      ["dummyInitializer.k8s.io", defaultInitializerName, "late.k8s.io"])
    { Pending := ["dummyInitializer.k8s.io", defaultInitializerName].map metav1.Initializer.mk }
    []
    (scriptedGate [UpdateReply.conflict (withPending (NewDeployment "foo")
      ["dummyInitializer.k8s.io", defaultInitializerName, "late.k8s.io"])])
    rfl (by decide) rfl rfl⟩

/-! ## Routing of processDeployment -/

/-- C4: for a deployment that has pending initializers and carries the approval
annotation key, and a requester that does not call back during RequestApproval,
processDeployment returns with the deployment unchanged, the store returns that
deployment under its name (other keys are as before), RequestApproval has been called
once more, with the approval naming the deployment and the requester and with the raw
annotation value, and the client set is untouched, so no Update is submitted. -/
theorem processDeployment_gates_annotated {V : Type} (cfg : Config) (codec : YamlCodec V)
    (deployment : Deployment) (req : Requester) (oga : OgaInitializer) (annon : String)
    (hpending : pendingOf deployment ≠ [])
    (hannon : annotationLookup deployment.ObjectMeta.Annotations cfg.annotation = some annon)
    (hquiet : ∀ a s, req.RequestApproval a s = []) :
    ∃ req1 oga1,
      processDeployment cfg codec deployment req oga = Outcome.done (deployment, req1, oga1) ∧
      oga1.store.get deployment.Name = some deployment ∧
      GetDeployment oga1 deployment.Name = some deployment ∧
      (∀ k, k ≠ deployment.Name → oga1.store.get k = oga.store.get k) ∧
      req1.received = req.received ++
        [({ Approver := "", DeploymentName := deployment.Name, RequesterName := req.GetName },
          annon)] ∧
      oga1.clientSet = oga.clientSet ∧
      submitted oga1.clientSet.actions = submitted oga.clientSet.actions := by
  cases hinits : deployment.ObjectMeta.Initializers with
  | none => simp [pendingOf, hinits] at hpending
  | some inits =>
    refine ⟨{ req with received := req.received ++
        [({ Approver := "", DeploymentName := deployment.Name, RequesterName := req.GetName },
          annon)] },
      { oga with store := oga.store.put deployment.Name deployment }, ?_,
      store_get_put_self _ _ _, store_get_put_self _ _ _,
      fun k hk => store_get_put_ne _ _ _ _ hk, rfl, rfl, rfl⟩
    unfold processDeployment
    simp only [Deployment.GetInitializers, Deployment.GetAnnotations, hinits, hannon, hquiet,
      runCallbacks]

/-- Witness of C4 on the second half of TestProcessDeployment: deployment foo with the
default initializer name and the approval annotation, and the fake requester. -/
theorem processDeployment_gates_annotated_witness :
    ∃ req1 oga1,
      processDeployment defaultConfig flatCodec
          (annotatedFoo [defaultInitializerName])
          (FakeRequester "fake") testGate =
        Outcome.done (annotatedFoo [defaultInitializerName], req1, oga1) ∧
      oga1.store.get "foo" =
        some (annotatedFoo [defaultInitializerName]) ∧
      GetDeployment oga1 "foo" =
        some (annotatedFoo [defaultInitializerName]) ∧
      (∀ k, k ≠ "foo" → oga1.store.get k = testGate.store.get k) ∧
      req1.received = [] ++
        [({ Approver := "", DeploymentName := "foo", RequesterName := "fake" },
          "channel: #baz\n")] ∧
      oga1.clientSet = testGate.clientSet ∧
      submitted oga1.clientSet.actions = submitted testGate.clientSet.actions :=
  processDeployment_gates_annotated defaultConfig flatCodec
    (annotatedFoo [defaultInitializerName])
    (FakeRequester "fake") testGate "channel: #baz\n" (by decide) (by decide)
    (fun _ _ => rfl)

/-- C5: for a deployment that has pending initializers and does not carry the approval
annotation key, processDeployment returns what initializeDeployment leaves: the store is
the same, so every get answers as before, the requester is the same, so RequestApproval
is not called, and the pending list has lost the first own entry; when the own name was
pending the object without it is the first one submitted with Update. -/
theorem processDeployment_admits_unannotated {V : Type} (cfg : Config) (codec : YamlCodec V)
    (deployment : Deployment) (req : Requester) (oga : OgaInitializer)
    (hpending : pendingOf deployment ≠ [])
    (hannon : annotationLookup deployment.ObjectMeta.Annotations cfg.annotation = none) :
    ∃ err d1 oga1,
      initializeDeployment cfg deployment oga = Outcome.done (err, d1, oga1) ∧
      processDeployment cfg codec deployment req oga = Outcome.done (d1, req, oga1) ∧
      oga1.store = oga.store ∧
      (∀ k, oga1.store.get k = oga.store.get k) ∧
      pendingOf d1 = (pendingOf deployment).erase (ownInitializer cfg) ∧
      (ownInitializer cfg ∈ pendingOf deployment →
        ∃ more, oga1.clientSet.actions =
          oga.clientSet.actions ++ Action.Update deployment.Namespace d1 :: more) ∧
      (ownInitializer cfg ∉ pendingOf deployment → oga1.clientSet = oga.clientSet) := by
  cases hinits : deployment.ObjectMeta.Initializers with
  | none => simp [pendingOf, hinits] at hpending
  | some inits =>
    have hp : pendingOf deployment = inits.Pending := by simp [pendingOf, hinits]
    have hproc : ∀ r, initializeDeployment cfg deployment oga = Outcome.done r →
        processDeployment cfg codec deployment req oga = Outcome.done (r.2.1, req, r.2.2) := by
      intro r hr
      unfold processDeployment
      simp only [Deployment.GetInitializers, Deployment.GetAnnotations, hinits, hannon, hr]
    have heq := initializeDeployment_eq cfg deployment inits oga hinits
    by_cases hown : ownInitializer cfg ∈ inits.Pending
    · rw [if_pos hown] at heq
      refine ⟨_, _, _, heq, hproc _ heq, rfl, fun _ => rfl,
        pendingOf_removeOwn cfg inits deployment hinits hown, ?_, ?_⟩
      · intro _
        have hns : (removeOwn cfg inits deployment).Namespace = deployment.Namespace := by
          unfold removeOwn; split <;> rfl
        obtain ⟨more, hmore⟩ := updateLoop_first_action oga.clientSet.reactions
          (removeOwn cfg inits deployment) oga.clientSet.actions
        rw [hns] at hmore
        exact ⟨more, hmore⟩
      · intro hnot
        rw [hp] at hnot
        exact absurd hown hnot
    · rw [if_neg hown] at heq
      refine ⟨_, _, _, heq, hproc _ heq, rfl, fun _ => rfl, ?_, ?_, fun _ => rfl⟩
      · rw [hp, List.erase_of_not_mem hown]
      · intro hmem
        rw [hp] at hmem
        exact absurd hmem hown

/-- Witness of C5 on the first half of TestProcessDeployment: deployment foo with one
foreign initializer and no annotation. -/
theorem processDeployment_admits_unannotated_witness :
    ∃ err d1 oga1,
      initializeDeployment defaultConfig
          (withPending (NewDeployment "foo") ["dummyInitializer.k8s.io"]) testGate =
        Outcome.done (err, d1, oga1) ∧
      processDeployment defaultConfig flatCodec
          (withPending (NewDeployment "foo") ["dummyInitializer.k8s.io"])
          (FakeRequester "fake") testGate =
        Outcome.done (d1, FakeRequester "fake", oga1) ∧
      oga1.store = testGate.store ∧
      (∀ k, oga1.store.get k = testGate.store.get k) ∧
      pendingOf d1 =
        (pendingOf (withPending (NewDeployment "foo") ["dummyInitializer.k8s.io"])).erase
          (ownInitializer defaultConfig) ∧
      (ownInitializer defaultConfig ∈
          pendingOf (withPending (NewDeployment "foo") ["dummyInitializer.k8s.io"]) →
        ∃ more, oga1.clientSet.actions =
          testGate.clientSet.actions ++
            Action.Update
              (withPending (NewDeployment "foo") ["dummyInitializer.k8s.io"]).Namespace d1 ::
              more) ∧
      (ownInitializer defaultConfig ∉
          pendingOf (withPending (NewDeployment "foo") ["dummyInitializer.k8s.io"]) →
        oga1.clientSet = testGate.clientSet) :=
  processDeployment_admits_unannotated defaultConfig flatCodec
    (withPending (NewDeployment "foo") ["dummyInitializer.k8s.io"])
    (FakeRequester "fake") testGate (by decide) (by decide)

/-! ## ApproveDeployment -/

/-- C6: ApproveDeployment for a name that is not in the store is not a no-op: the store
lookup yields nil and the read of the annotations of that nil deployment panics. -/
theorem ApproveDeployment_unknown_name_panics {V : Type} (cfg : Config) (codec : YamlCodec V)
    (approvedDeployment : Approval) (oga : OgaInitializer)
    (habsent : oga.store.get approvedDeployment.DeploymentName = none) :
    ApproveDeployment cfg codec approvedDeployment oga =
      Outcome.panic Panic.nilDereference := by
  unfold ApproveDeployment
  simp only [habsent]

/-- Evaluation of C6: approving foo on the empty store of the tests panics. -/
theorem ApproveDeployment_unknown_name_panics_witness :
    testGate.store.get "foo" = none ∧
    ApproveDeployment defaultConfig flatCodec
        { Approver := "@bjhaid", DeploymentName := "foo", RequesterName := "fake" } testGate =
      Outcome.panic Panic.nilDereference :=
  ⟨rfl, ApproveDeployment_unknown_name_panics defaultConfig flatCodec
    { Approver := "@bjhaid", DeploymentName := "foo", RequesterName := "fake" } testGate rfl⟩

/-- C8: for a stored deployment with pending initializers whose approval annotation (the
value under the default annotation key) decodes to a mapping `m`, where the codec round
trips the enriched mapping, ApproveDeployment with approver `a` returns and the
annotation value of the deployment then decodes to a mapping with `approved_by` set to
`a` and every other key as in `m`; the other annotation keys keep their values. -/
theorem ApproveDeployment_records_approver {V : Type} (cfg : Config) (codec : YamlCodec V)
    (approvedDeployment : Approval) (oga : OgaInitializer) (deployment : Deployment)
    (inits : metav1.Initializers) (annotations : GoMap String) (m : GoMap V)
    (hstored : oga.store.get approvedDeployment.DeploymentName = some deployment)
    (hinits : deployment.ObjectMeta.Initializers = some inits)
    (hann : deployment.ObjectMeta.Annotations = some annotations)
    (hdecode : codec.Unmarshal (annotationValue (some annotations) defaultAnnotation) =
      Decoded.value m)
    (hround : RoundTrips codec
      (mapSet m "approved_by" (codec.ofString approvedDeployment.Approver))) :
    ∃ d1 oga1 m1,
      ApproveDeployment cfg codec approvedDeployment oga = Outcome.done (d1, oga1) ∧
      codec.Unmarshal (annotationValue d1.ObjectMeta.Annotations defaultAnnotation) =
        Decoded.value m1 ∧
      mapGet m1 "approved_by" = some (codec.ofString approvedDeployment.Approver) ∧
      (∀ k, k ≠ "approved_by" → mapGet m1 k = mapGet m k) ∧
      (∀ k, k ≠ defaultAnnotation →
        annotationLookup d1.ObjectMeta.Annotations k =
          annotationLookup deployment.ObjectMeta.Annotations k) := by
  obtain ⟨b, hb, m1, hm1, hsame⟩ := hround
  have henrich : enrichAnnotation codec approvedDeployment deployment =
      Outcome.done { deployment with
        ObjectMeta := { deployment.ObjectMeta with
          Annotations := some (mapSet annotations defaultAnnotation b) } } := by
    unfold enrichAnnotation
    simp only [hann, hdecode, hb]
  obtain ⟨err, d1, oga0, hinit⟩ := initializeDeployment_returns cfg
    { deployment with
      ObjectMeta := { deployment.ObjectMeta with
        Annotations := some (mapSet annotations defaultAnnotation b) } } oga
    (by simp [hinits])
  have hd1 := initializeDeployment_annotations cfg _ d1 oga oga0 err hinit
  refine ⟨d1, { oga0 with store := oga0.store.deleteKey approvedDeployment.DeploymentName },
    m1, ?_, ?_, ?_, ?_, ?_⟩
  · unfold ApproveDeployment
    simp only [hstored, henrich, hinit]
  · rw [hd1]
    simp only [annotationValue, annotationLookup, mapGet_mapSet_self, Option.getD_some]
    exact hm1
  · rw [hsame, mapGet_mapSet_self]
  · intro k hk
    rw [hsame, mapGet_mapSet_ne _ _ _ _ hk]
  · intro k hk
    rw [hd1, hann]
    simp only [annotationLookup]
    exact mapGet_mapSet_ne _ _ _ _ hk

/-- Witness of C8 on the scenario of TestApproveDeployment: deployment foo, pending under
a foreign and the default initializer name, approved by @bjhaid. -/
theorem ApproveDeployment_records_approver_witness :
    ∃ d1 oga1 m1,
      ApproveDeployment defaultConfig flatCodec
          { Approver := "@bjhaid", DeploymentName := "foo", RequesterName := "fake" }
          (gateHolding (annotatedFoo ["dummyInitializer.k8s.io", defaultInitializerName])) =
        Outcome.done (d1, oga1) ∧
      flatCodec.Unmarshal (annotationValue d1.ObjectMeta.Annotations defaultAnnotation) =
        Decoded.value m1 ∧
      mapGet m1 "approved_by" = some "@bjhaid" ∧
      (∀ k, k ≠ "approved_by" → mapGet m1 k = mapGet [("channel", "#baz")] k) ∧
      (∀ k, k ≠ defaultAnnotation →
        annotationLookup d1.ObjectMeta.Annotations k =
          annotationLookup (some [( defaultAnnotation, "channel: #baz\n")]) k) :=
  ApproveDeployment_records_approver defaultConfig flatCodec
    { Approver := "@bjhaid", DeploymentName := "foo", RequesterName := "fake" }
    (gateHolding (annotatedFoo ["dummyInitializer.k8s.io", defaultInitializerName]))
    (annotatedFoo ["dummyInitializer.k8s.io", defaultInitializerName])
    { Pending := ["dummyInitializer.k8s.io", defaultInitializerName].map metav1.Initializer.mk }
    [( defaultAnnotation, "channel: #baz\n")]
    [("channel", "#baz")]
    (by decide) rfl rfl (by decide)
    ⟨"approved_by: @bjhaid\nchannel: #baz\n", by decide,
      [("channel", "#baz"), ("approved_by", "@bjhaid")], by decide,
      fun k => by
        by_cases h1 : "channel" = k
        · subst h1; decide
        · by_cases h2 : "approved_by" = k
          · subst h2; decide
          · simp [mapGet, mapSet, mapDelete, h1, h2]⟩

/-- C9: for a name present in the store, whenever ApproveDeployment returns the name is
absent afterwards and every other key answers as before; it does return when the stored
deployment has its Initializers field and its annotations map and the decoder does not
leave the decoded map nil; and when the Update of
the own-initializer removal is answered with a non-conflict error, initializeDeployment
returns that error after this single Update, without a Get or a second Update, and the
name is deleted all the same. -/
theorem ApproveDeployment_always_deletes {V : Type} (cfg : Config) (codec : YamlCodec V)
    (approvedDeployment : Approval) (oga : OgaInitializer) (deployment : Deployment)
    (hstored : oga.store.get approvedDeployment.DeploymentName = some deployment) :
    (∀ d1 oga1, ApproveDeployment cfg codec approvedDeployment oga = Outcome.done (d1, oga1) →
      oga1.store.get approvedDeployment.DeploymentName = none ∧
      ∀ k, k ≠ approvedDeployment.DeploymentName → oga1.store.get k = oga.store.get k) ∧
    (deployment.ObjectMeta.Initializers ≠ none → deployment.ObjectMeta.Annotations ≠ none →
      codec.Unmarshal (annotationValue deployment.ObjectMeta.Annotations defaultAnnotation) ≠
        Decoded.null →
      ∃ d1 oga1, ApproveDeployment cfg codec approvedDeployment oga = Outcome.done (d1, oga1)) ∧
    (∀ (err : String) (rest : List UpdateReply),
      ownInitializer cfg ∈ pendingOf deployment →
      deployment.ObjectMeta.Annotations ≠ none →
      codec.Unmarshal (annotationValue deployment.ObjectMeta.Annotations defaultAnnotation) ≠
        Decoded.null →
      oga.clientSet.reactions = UpdateReply.failure err :: rest →
      ∃ enriched d1 oga0,
        enrichAnnotation codec approvedDeployment deployment = Outcome.done enriched ∧
        initializeDeployment cfg enriched oga = Outcome.done (some err, d1, oga0) ∧
        oga0.clientSet.reactions = rest ∧
        oga0.clientSet.actions = oga.clientSet.actions ++ [Action.Update d1.Namespace d1] ∧
        ApproveDeployment cfg codec approvedDeployment oga =
          Outcome.done
            (d1, { oga0 with
                    store := oga0.store.deleteKey approvedDeployment.DeploymentName }) ∧
        (oga0.store.deleteKey approvedDeployment.DeploymentName).get
          approvedDeployment.DeploymentName = none) := by
  refine ⟨?_, ?_, ?_⟩
  · intro d1 oga1 h
    unfold ApproveDeployment at h
    simp only [hstored] at h
    cases henrich : enrichAnnotation codec approvedDeployment deployment with
    | panic p => simp only [henrich] at h; cases h
    | done enriched =>
      cases hinit : initializeDeployment cfg enriched oga with
      | panic p => simp only [henrich, hinit] at h; cases h
      | done r =>
        obtain ⟨err, d2, oga0⟩ := r
        simp only [henrich, hinit] at h
        have hstore := initializeDeployment_store cfg enriched d2 oga oga0 err hinit
        cases h
        refine ⟨store_get_deleteKey_self _ _, ?_⟩
        intro k hk
        show (oga0.store.deleteKey approvedDeployment.DeploymentName).get k = oga.store.get k
        rw [store_get_deleteKey_ne _ _ _ hk, hstore]
  · intro hinits hann hnull
    obtain ⟨enriched, henrich⟩ :=
      enrichAnnotation_returns codec approvedDeployment deployment hann hnull
    have hinits2 : enriched.ObjectMeta.Initializers ≠ none := by
      rw [enrichAnnotation_initializers codec approvedDeployment deployment enriched henrich]
      exact hinits
    obtain ⟨err, d1, oga0, hinit⟩ := initializeDeployment_returns cfg enriched oga hinits2
    refine ⟨d1, { oga0 with store := oga0.store.deleteKey approvedDeployment.DeploymentName }, ?_⟩
    unfold ApproveDeployment
    simp only [hstored, henrich, hinit]
  · intro err rest hown hann hnull hscript
    obtain ⟨enriched, henrich⟩ :=
      enrichAnnotation_returns codec approvedDeployment deployment hann hnull
    have hsame := enrichAnnotation_initializers codec approvedDeployment deployment enriched
      henrich
    cases hinits : deployment.ObjectMeta.Initializers with
    | none => simp [pendingOf, hinits] at hown
    | some inits =>
      have hown2 : ownInitializer cfg ∈ inits.Pending := by
        simpa [pendingOf, hinits] using hown
      have hinits2 : enriched.ObjectMeta.Initializers = some inits := by rw [hsame, hinits]
      have hinit := initializeDeployment_eq cfg enriched inits oga hinits2
      rw [if_pos hown2, loopError, afterLoop, hscript, updateLoop_failure] at hinit
      refine ⟨enriched, removeOwn cfg inits enriched, _, henrich, hinit, rfl, rfl, ?_,
        store_get_deleteKey_self _ _⟩
      unfold ApproveDeployment
      simp only [hstored, henrich, hinit]

/-- Witness of C9 on the store of TestApproveDeployment, with the Update answered by a
non-conflict error. -/
theorem ApproveDeployment_always_deletes_witness :
    (∀ d1 oga1,
      ApproveDeployment defaultConfig flatCodec
          { Approver := "@bjhaid", DeploymentName := "foo", RequesterName := "fake" }
          ({ gateHolding (annotatedFoo ["dummyInitializer.k8s.io", defaultInitializerName]) with
              clientSet := { reactions := [UpdateReply.failure "forbidden"], actions := [] } }) =
        Outcome.done (d1, oga1) →
      oga1.store.get "foo" = none ∧
      ∀ k, k ≠ "foo" → oga1.store.get k =
        (gateHolding
          (annotatedFoo ["dummyInitializer.k8s.io", defaultInitializerName])).store.get k) ∧
    (∃ d1 oga1,
      ApproveDeployment defaultConfig flatCodec
          { Approver := "@bjhaid", DeploymentName := "foo", RequesterName := "fake" }
          ({ gateHolding (annotatedFoo ["dummyInitializer.k8s.io", defaultInitializerName]) with
              clientSet := { reactions := [UpdateReply.failure "forbidden"], actions := [] } }) =
        Outcome.done (d1, oga1)) ∧
    (∃ enriched d1 oga0,
      enrichAnnotation flatCodec
          { Approver := "@bjhaid", DeploymentName := "foo", RequesterName := "fake" }
          (annotatedFoo ["dummyInitializer.k8s.io", defaultInitializerName]) =
        Outcome.done enriched ∧
      initializeDeployment defaultConfig enriched
          ({ gateHolding (annotatedFoo ["dummyInitializer.k8s.io", defaultInitializerName]) with
              clientSet := { reactions := [UpdateReply.failure "forbidden"], actions := [] } }) =
        Outcome.done (some "forbidden", d1, oga0) ∧
      oga0.clientSet.reactions = [] ∧
      oga0.clientSet.actions = [] ++ [Action.Update d1.Namespace d1] ∧
      ApproveDeployment defaultConfig flatCodec
          { Approver := "@bjhaid", DeploymentName := "foo", RequesterName := "fake" }
          ({ gateHolding (annotatedFoo ["dummyInitializer.k8s.io", defaultInitializerName]) with
              clientSet := { reactions := [UpdateReply.failure "forbidden"], actions := [] } }) =
        Outcome.done (d1, { oga0 with store := oga0.store.deleteKey "foo" }) ∧
      (oga0.store.deleteKey "foo").get "foo" = none) :=
  ⟨(ApproveDeployment_always_deletes defaultConfig flatCodec
      { Approver := "@bjhaid", DeploymentName := "foo", RequesterName := "fake" }
      ({ gateHolding (annotatedFoo ["dummyInitializer.k8s.io", defaultInitializerName]) with
          clientSet := { reactions := [UpdateReply.failure "forbidden"], actions := [] } })
      (annotatedFoo ["dummyInitializer.k8s.io", defaultInitializerName]) (by decide)).1,
   (ApproveDeployment_always_deletes defaultConfig flatCodec
      { Approver := "@bjhaid", DeploymentName := "foo", RequesterName := "fake" }
      ({ gateHolding (annotatedFoo ["dummyInitializer.k8s.io", defaultInitializerName]) with
          clientSet := { reactions := [UpdateReply.failure "forbidden"], actions := [] } })
      (annotatedFoo ["dummyInitializer.k8s.io", defaultInitializerName]) (by decide)).2.1
      (by decide) (by decide) (by decide),
   (ApproveDeployment_always_deletes defaultConfig flatCodec
      { Approver := "@bjhaid", DeploymentName := "foo", RequesterName := "fake" }
      ({ gateHolding (annotatedFoo ["dummyInitializer.k8s.io", defaultInitializerName]) with
          clientSet := { reactions := [UpdateReply.failure "forbidden"], actions := [] } })
      (annotatedFoo ["dummyInitializer.k8s.io", defaultInitializerName]) (by decide)).2.2
      "forbidden" [] (by decide) (by decide) (by decide) rfl⟩

/-! ## Deployments without pending initializers -/

/-- C10, as amended: processDeployment ignores every deployment whose Initializers field
is nil, annotated or not, and every deployment whose Initializers field is present with
an empty Pending list that does not carry the approval annotation key: it returns the
deployment, the requester and the gate as they were, so nothing is put into the store,
RequestApproval is not called and no Update is submitted. A deployment whose
Initializers field is present with an empty Pending list and that carries the approval
annotation key is not ignored: whenever processDeployment returns, the requester has
received the RequestApproval call for it, and with a requester that does not call back
processDeployment returns and the deployment is in the store. -/
theorem processDeployment_ignores_initialized {V : Type} (cfg : Config) (codec : YamlCodec V)
    (deployment : Deployment) (req : Requester) (oga : OgaInitializer) :
    (pendingOf deployment = [] →
      (deployment.ObjectMeta.Initializers = none ∨
        annotationLookup deployment.ObjectMeta.Annotations cfg.annotation = none) →
      processDeployment cfg codec deployment req oga = Outcome.done (deployment, req, oga) ∧
      Ignores cfg codec deployment req oga) ∧
    (∀ (inits : metav1.Initializers) (annon : String),
      deployment.ObjectMeta.Initializers = some inits →
      inits.Pending = [] →
      annotationLookup deployment.ObjectMeta.Annotations cfg.annotation = some annon →
      ¬ Ignores cfg codec deployment req oga ∧
      (∀ d1 req1 oga1,
        processDeployment cfg codec deployment req oga = Outcome.done (d1, req1, oga1) →
        req1.received = req.received ++
          [({ Approver := "", DeploymentName := deployment.Name,
              RequesterName := req.GetName }, annon)]) ∧
      ((∀ a s, req.RequestApproval a s = []) →
        ∃ req1 oga1,
          processDeployment cfg codec deployment req oga =
            Outcome.done (deployment, req1, oga1) ∧
          oga1.store.get deployment.Name = some deployment ∧
          req1.received = req.received ++
            [({ Approver := "", DeploymentName := deployment.Name,
                RequesterName := req.GetName }, annon)])) := by
  constructor
  · intro hpending hcase
    have hmain : processDeployment cfg codec deployment req oga =
        Outcome.done (deployment, req, oga) := by
      cases hinits : deployment.ObjectMeta.Initializers with
      | none =>
        unfold processDeployment
        simp only [Deployment.GetInitializers, hinits]
      | some inits =>
        rcases hcase with hnil | hannon
        · rw [hinits] at hnil; cases hnil
        · have hempty : inits.Pending = [] := by simpa [pendingOf, hinits] using hpending
          have hnot : ownInitializer cfg ∉ inits.Pending := by rw [hempty]; simp
          have hinit := initializeDeployment_eq cfg deployment inits oga hinits
          rw [if_neg hnot] at hinit
          unfold processDeployment
          simp only [Deployment.GetInitializers, Deployment.GetAnnotations, hinits, hannon,
            hinit]
    exact ⟨hmain, deployment, req, oga, hmain, rfl, rfl, rfl⟩
  · intro inits annon hinits _ hannon
    have hreceived : ∀ d1 req1 oga1,
        processDeployment cfg codec deployment req oga = Outcome.done (d1, req1, oga1) →
        req1.received = req.received ++
          [({ Approver := "", DeploymentName := deployment.Name,
              RequesterName := req.GetName }, annon)] := by
      intro d1 req1 oga1 h
      unfold processDeployment at h
      simp only [Deployment.GetInitializers, Deployment.GetAnnotations, hinits, hannon] at h
      split at h
      · cases h
      · cases h
        rfl
    refine ⟨?_, hreceived, ?_⟩
    · rintro ⟨d1, req1, oga1, h, _, hsame, _⟩
      have hgrown := hreceived d1 req1 oga1 h
      rw [hsame] at hgrown
      have hlen := congrArg List.length hgrown
      simp at hlen
    · intro hquiet
      refine ⟨{ req with received := req.received ++
          [({ Approver := "", DeploymentName := deployment.Name,
              RequesterName := req.GetName }, annon)] },
        { oga with store := oga.store.put deployment.Name deployment }, ?_,
        store_get_put_self _ _ _, rfl⟩
      unfold processDeployment
      simp only [Deployment.GetInitializers, Deployment.GetAnnotations, hinits, hannon, hquiet,
        runCallbacks]

/-- Witness of the amended C10: deployment foo of the tests, annotated, is ignored with a
nil Initializers field, and is stored and passed to RequestApproval with a present
Initializers field whose Pending list is empty. -/
theorem processDeployment_ignores_initialized_witness :
    (processDeployment defaultConfig flatCodec
        (withAnnotations (NewDeployment "foo") [( defaultAnnotation, "channel: #baz\n")])
        (FakeRequester "fake") testGate =
      Outcome.done
        (withAnnotations (NewDeployment "foo") [( defaultAnnotation, "channel: #baz\n")],
         FakeRequester "fake", testGate) ∧
      Ignores defaultConfig flatCodec
        (withAnnotations (NewDeployment "foo") [( defaultAnnotation, "channel: #baz\n")])
        (FakeRequester "fake") testGate) ∧
    (∃ req1 oga1,
      processDeployment defaultConfig flatCodec (annotatedFoo []) (FakeRequester "fake")
        testGate = Outcome.done (annotatedFoo [], req1, oga1) ∧
      oga1.store.get (annotatedFoo []).Name = some (annotatedFoo []) ∧
      req1.received = (FakeRequester "fake").received ++
        [({ Approver := "", DeploymentName := (annotatedFoo []).Name,
            RequesterName := (FakeRequester "fake").GetName }, "channel: #baz\n")]) :=
  ⟨(processDeployment_ignores_initialized defaultConfig flatCodec
      (withAnnotations (NewDeployment "foo") [( defaultAnnotation, "channel: #baz\n")])
      (FakeRequester "fake") testGate).1 rfl (Or.inl rfl),
   ((processDeployment_ignores_initialized defaultConfig flatCodec (annotatedFoo [])
      (FakeRequester "fake") testGate).2 { Pending := [] } "channel: #baz\n" rfl rfl
      (by decide)).2.2 (fun _ _ => rfl)⟩

/-- C10 as stated fails: deployment foo with the Initializers field present, an empty
Pending list (the value newInitializers builds) and the approval annotation has an empty
pending sequence, yet processDeployment puts it into the store and calls
RequestApproval. -/
theorem processDeployment_empty_pending_not_ignored :
    pendingOf (annotatedFoo []) = [] ∧
    ¬ Ignores defaultConfig flatCodec (annotatedFoo []) (FakeRequester "fake") testGate ∧
    ∃ req1 oga1,
      processDeployment defaultConfig flatCodec (annotatedFoo []) (FakeRequester "fake")
        testGate = Outcome.done (annotatedFoo [], req1, oga1) ∧
      oga1.store.get "foo" = some (annotatedFoo []) ∧
      req1.received =
        [({ Approver := "", DeploymentName := "foo", RequesterName := "fake" },
          "channel: #baz\n")] := by
  have hrun : processDeployment defaultConfig flatCodec (annotatedFoo []) (FakeRequester "fake")
      testGate =
      Outcome.done (annotatedFoo [],
        { FakeRequester "fake" with
          received := [({ Approver := "", DeploymentName := "foo", RequesterName := "fake" },
            "channel: #baz\n")] },
        gateHolding (annotatedFoo [])) := by rfl
  refine ⟨rfl, ?_, _, _, hrun, by decide, rfl⟩
  rintro ⟨d1, req1, oga1, h, _, hreceived, _⟩
  rw [hrun] at h
  cases h
  revert hreceived
  simp [FakeRequester]

/-! ## The pending store -/

theorem entriesFor_mapDelete_self {β : Type} (m : GoMap β) (k : String) :
    entriesFor (mapDelete m k) k = 0 := by
  induction m with
  | nil => rfl
  | cons p rest ih =>
    obtain ⟨k1, v⟩ := p
    by_cases h : k1 = k
    · simp only [mapDelete, if_pos h, ih]
    · simp only [mapDelete, if_neg h]
      simp only [entriesFor] at ih ⊢
      simp [List.filter_cons, h, ih]

theorem entriesFor_mapDelete_le {β : Type} (m : GoMap β) (k k1 : String) :
    entriesFor (mapDelete m k) k1 ≤ entriesFor m k1 := by
  induction m with
  | nil => exact Nat.le_refl _
  | cons p rest ih =>
    obtain ⟨k2, v⟩ := p
    simp only [entriesFor] at ih ⊢
    by_cases h : k2 = k
    · simp only [mapDelete, if_pos h]
      by_cases h1 : k2 = k1
      · simp [List.filter_cons, h1]; omega
      · simp [List.filter_cons, h1]; exact ih
    · simp only [mapDelete, if_neg h]
      by_cases h1 : k2 = k1
      · simp [List.filter_cons, h1]; exact ih
      · simp [List.filter_cons, h1]; exact ih

theorem entriesFor_mapSet_self {β : Type} (m : GoMap β) (k : String) (v : β) :
    entriesFor (mapSet m k v) k = 1 := by
  have h := entriesFor_mapDelete_self m k
  simp only [entriesFor] at h ⊢
  simp [mapSet, List.filter_cons, h]

theorem entriesFor_mapSet_ne {β : Type} (m : GoMap β) (k k1 : String) (v : β) (h : k ≠ k1) :
    entriesFor (mapSet m k v) k1 ≤ entriesFor m k1 := by
  have h1 := entriesFor_mapDelete_le m k k1
  simp only [entriesFor] at h1 ⊢
  simp [mapSet, List.filter_cons, h]
  exact h1

theorem entriesFor_apply (store : DeploymentStore) (op : StoreOp)
    (h : ∀ k, entriesFor store.table k ≤ 1) :
    ∀ k, entriesFor (StoreOp.apply store op).table k ≤ 1 := by
  intro k
  cases op with
  | put key value =>
    by_cases hk : key = k
    · subst hk
      exact Nat.le_of_eq (entriesFor_mapSet_self store.table key value)
    · exact Nat.le_trans (entriesFor_mapSet_ne store.table key k value hk) (h k)
  | deleteKey key =>
    exact Nat.le_trans (entriesFor_mapDelete_le store.table key k) (h k)

theorem entriesFor_runStoreOps (ops : List StoreOp) :
    ∀ store : DeploymentStore, (∀ k, entriesFor store.table k ≤ 1) →
      ∀ k, entriesFor (runStoreOps ops store).table k ≤ 1 := by
  induction ops with
  | nil => intro store h; exact h
  | cons op rest ih =>
    intro store h
    exact ih (StoreOp.apply store op) (entriesFor_apply store op h)

theorem get_runStoreOps_of_no_put (key : String) (ops : List StoreOp) :
    ∀ store : DeploymentStore, store.get key = none →
      (∀ op ∈ ops, StoreOp.putsKey key op = false) →
      (runStoreOps ops store).get key = none := by
  induction ops with
  | nil => intro store h _; exact h
  | cons op rest ih =>
    intro store h hops
    apply ih
    · have hop := hops op (List.mem_cons_self _ _)
      cases op with
      | put k v =>
        have hk : key ≠ k := by
          intro e
          simp [StoreOp.putsKey, e] at hop
        show (store.put k v).get key = none
        rw [store_get_put_ne _ _ _ _ hk]
        exact h
      | deleteKey k =>
        show (store.deleteKey k).get key = none
        by_cases hk : key = k
        · rw [hk]; exact store_get_deleteKey_self _ _
        · rw [store_get_deleteKey_ne _ _ _ hk]; exact h
    · intro op1 hmem
      exact hops op1 (List.mem_cons_of_mem _ hmem)

/-- C11: the DeploymentStore is a finite map with at most one entry per name. After
put(k, v) get(k) is v and a second put on k overwrites the first; after deleteKey(k)
get(k) is absent; on a store built from NewDeploymentStore by puts and deletes, get of a
key that was never put is absent and no key has more than one entry; put and deleteKey on
k leave get of every other key unchanged. -/
theorem DeploymentStore_is_finite_map (store : DeploymentStore) (k : String)
    (v v2 : Deployment) :
    (store.put k v).get k = some v ∧
    ((store.put k v).put k v2).get k = some v2 ∧
    (store.deleteKey k).get k = none ∧
    entriesFor (store.put k v).table k = 1 ∧
    (∀ ops : List StoreOp, (∀ op ∈ ops, StoreOp.putsKey k op = false) →
      (runStoreOps ops NewDeploymentStore).get k = none) ∧
    (∀ (ops : List StoreOp) (k1 : String),
      entriesFor (runStoreOps ops NewDeploymentStore).table k1 ≤ 1) ∧
    (∀ k1, k1 ≠ k → (store.put k v).get k1 = store.get k1) ∧
    (∀ k1, k1 ≠ k → (store.deleteKey k).get k1 = store.get k1) := by
  refine ⟨store_get_put_self _ _ _, store_get_put_self _ _ _, store_get_deleteKey_self _ _,
    entriesFor_mapSet_self _ _ _, ?_, ?_, ?_, ?_⟩
  · intro ops hops
    exact get_runStoreOps_of_no_put k ops NewDeploymentStore rfl hops
  · intro ops k1
    exact entriesFor_runStoreOps ops NewDeploymentStore (fun _ => Nat.zero_le _) k1
  · intro k1 hk
    exact store_get_put_ne _ _ _ _ hk
  · intro k1 hk
    exact store_get_deleteKey_ne _ _ _ hk

/-- Witness of C11 on the store of the tests holding deployment bar, for the key foo. -/
theorem DeploymentStore_is_finite_map_witness :
    (runStoreOps [StoreOp.put "bar" (NewDeployment "bar"), StoreOp.deleteKey "foo"]
      NewDeploymentStore).get "foo" = none ∧
    ((NewDeploymentStore.put "bar" (NewDeployment "bar")).put "foo" (NewDeployment "foo")).get
      "bar" = (NewDeploymentStore.put "bar" (NewDeployment "bar")).get "bar" ∧
    ((NewDeploymentStore.put "bar" (NewDeployment "bar")).deleteKey "foo").get "bar" =
      (NewDeploymentStore.put "bar" (NewDeployment "bar")).get "bar" :=
  ⟨(DeploymentStore_is_finite_map (NewDeploymentStore.put "bar" (NewDeployment "bar")) "foo"
      (NewDeployment "foo") (NewDeployment "foo")).2.2.2.2.1
      [StoreOp.put "bar" (NewDeployment "bar"), StoreOp.deleteKey "foo"] (by decide),
   (DeploymentStore_is_finite_map (NewDeploymentStore.put "bar" (NewDeployment "bar")) "foo"
      (NewDeployment "foo") (NewDeployment "foo")).2.2.2.2.2.2.1 "bar" (by decide),
   (DeploymentStore_is_finite_map (NewDeploymentStore.put "bar" (NewDeployment "bar")) "foo"
      (NewDeployment "foo") (NewDeployment "foo")).2.2.2.2.2.2.2 "bar" (by decide)⟩

namespace requester

/-! ## Lemmas on the Slack requester -/

theorem SameButCaches.refl (r : SlackRequester) : SameButCaches r r :=
  ⟨rfl, rfl, rfl, rfl, rfl, rfl, rfl, rfl⟩

theorem SameButCaches.trans {r1 r2 r3 : SlackRequester} (h12 : SameButCaches r1 r2)
    (h23 : SameButCaches r2 r3) : SameButCaches r1 r3 := by
  obtain ⟨a1, a2, a3, a4, a5, a6, a7, a8⟩ := h12
  obtain ⟨b1, b2, b3, b4, b5, b6, b7, b8⟩ := h23
  exact ⟨b1.trans a1, b2.trans a2, b3.trans a3, b4.trans a4, b5.trans a5, b6.trans a6,
    b7.trans a7, b8.trans a8⟩

theorem getUserID_same (req : SlackRequester) (user : String) :
    SameButCaches req (getUserID req user).2 := by
  unfold getUserID
  split
  · exact SameButCaches.refl req
  · dsimp only
    split
    · exact ⟨rfl, rfl, rfl, rfl, rfl, rfl, rfl, rfl⟩
    · split <;> exact ⟨rfl, rfl, rfl, rfl, rfl, rfl, rfl, rfl⟩

theorem getChannelID_same (req : SlackRequester) (channel : String) :
    SameButCaches req (getChannelID req channel).2 := by
  unfold getChannelID
  split
  · exact SameButCaches.refl req
  · dsimp only
    split
    · exact ⟨rfl, rfl, rfl, rfl, rfl, rfl, rfl, rfl⟩
    · split <;> exact ⟨rfl, rfl, rfl, rfl, rfl, rfl, rfl, rfl⟩

theorem retrieveLoop_same (approvers : List String) :
    ∀ (req : SlackRequester) (ids : List String) (err : Option String),
      SameButCaches req (retrieveLoop approvers req ids err).2 := by
  induction approvers with
  | nil => intro req ids err; exact SameButCaches.refl req
  | cons appr rest ih =>
    intro req ids err
    unfold retrieveLoop
    split
    · exact SameButCaches.trans (getUserID_same req appr) (ih _ _ _)
    · exact SameButCaches.trans (getUserID_same req appr) (ih _ _ _)

/-- The error `retrieveApproverIds` returns is the one it starts with, nil: no failure of
`getUserID` reaches it. -/
theorem retrieveLoop_err (approvers : List String) :
    ∀ (req : SlackRequester) (ids : List String) (err : Option String),
      (retrieveLoop approvers req ids err).1.2 = err := by
  induction approvers with
  | nil => intro req ids err; rfl
  | cons appr rest ih =>
    intro req ids err
    unfold retrieveLoop
    split
    · exact ih _ _ _
    · exact ih _ _ _

theorem retrieveApproverIds_err (req : SlackRequester) (approvers : List String) :
    (retrieveApproverIds req approvers).1.2 = none :=
  retrieveLoop_err approvers req [] none

theorem retrieveApproverIds_same (req : SlackRequester) (approvers : List String) :
    SameButCaches req (retrieveApproverIds req approvers).2 :=
  retrieveLoop_same approvers req [] none

theorem findChannel_none (channel : String) (channels : List slack.Channel)
    (h : ∀ cha ∈ channels, cha.Name ≠ channel) : findChannel channel channels = none := by
  induction channels with
  | nil => rfl
  | cons cha rest ih =>
    have h1 : ¬ channel = cha.Name := fun e => h cha (List.mem_cons_self _ _) e.symm
    simp only [findChannel, if_neg h1]
    exact ih (fun c hc => h c (List.mem_cons_of_mem _ hc))

theorem getChannelID_unknown (req : SlackRequester) (channel : String)
    (h : ChannelUnknown req channel) :
    ∃ err, (getChannelID req channel).1.2 = some err := by
  obtain ⟨hcache, channels, hapi, hnone⟩ := h
  refine ⟨stringsReplaceOnce channel '#' ++ " channel does not exist in slack API", ?_⟩
  unfold getChannelID
  simp only [hapi, lru.Cache.Get, hcache, findChannel_none _ channels hnone]

theorem matchApprover_same (sender : String) (approvers : List String) :
    ∀ req : SlackRequester, SameButCaches req (matchApprover sender approvers req).2 := by
  induction approvers with
  | nil => intro req; exact SameButCaches.refl req
  | cons approver rest ih =>
    intro req
    unfold matchApprover
    split
    · exact getUserID_same req approver
    · exact SameButCaches.trans (getUserID_same req approver) (ih _)

/-- When the loop of `Run` finds a match, some recorded approver resolves to the ID of the
sender in a requester that differs from the initial one at most in its caches. -/
theorem matchApprover_true (sender : String) (approvers : List String) :
    ∀ req : SlackRequester, (matchApprover sender approvers req).1 = true →
      ∃ approver ∈ approvers, ∃ reqi, SameButCaches req reqi ∧
        (getUserID reqi approver).1.1 = sender := by
  induction approvers with
  | nil => intro req h; simp [matchApprover] at h
  | cons approver rest ih =>
    intro req h
    unfold matchApprover at h
    split at h
    · rename_i heq
      exact ⟨approver, List.mem_cons_self _ _, req, SameButCaches.refl req, heq.symm⟩
    · obtain ⟨a, ha, reqi, hsame, hres⟩ := ih _ h
      exact ⟨a, List.mem_cons_of_mem _ ha, reqi,
        SameButCaches.trans (getUserID_same req approver) hsame, hres⟩

theorem afterPost_same (req : SlackRequester) (app : Approval) (decoded : Annotation)
    (deployment : Deployment) :
    (afterPost req app decoded deployment).api = req.api ∧
    (afterPost req app decoded deployment).approvers = req.approvers ∧
    (afterPost req app decoded deployment).initializer = req.initializer := by
  have h1 := getChannelID_same (withRequest req app) decoded.Slack.Channel
  have h2 := retrieveApproverIds_same
    (getChannelID (withRequest req app) decoded.Slack.Channel).2 decoded.Slack.Approvers
  obtain ⟨_, hapi, _, _, hinit, happr, _, _⟩ := SameButCaches.trans h1 h2
  exact ⟨hapi, happr, hinit⟩

/-- What `RequestApproval` does once the payload is decoded, the channel is named and
resolved, and the gate returns the deployment: it posts, and the answer decides. -/
theorem RequestApproval_posts (decode : String → Decoded Annotation) (req : SlackRequester)
    (oga : Interface) (app : Approval) (annon : String) (decoded : Annotation)
    (deployment : Deployment)
    (hdec : decode annon = Decoded.value decoded)
    (hch : decoded.Slack.Channel ≠ "")
    (hfound : (getChannelID (withRequest req app) decoded.Slack.Channel).1.2 = none)
    (hdep : oga.GetDeployment app.DeploymentName = some deployment) :
    RequestApproval decode req oga app annon =
      match req.api.PostMessage (getChannelID (withRequest req app) decoded.Slack.Channel).1.1
          (promptText
            (retrieveApproverIds (getChannelID (withRequest req app) decoded.Slack.Channel).2
              decoded.Slack.Approvers).1.1
            app.DeploymentName)
          (deployment.Containers.map (fun container => container.Image)) with
      | some _ =>
          Outcome.done (afterPost req app decoded deployment, oga.ApproveDeployment app)
      | none => Outcome.done (afterRecord req app decoded deployment, oga) := by
  have hapi := (afterPost_same req app decoded deployment).1
  have herr := retrieveApproverIds_err
    (getChannelID (withRequest req app) decoded.Slack.Channel).2 decoded.Slack.Approvers
  simp only [withRequest] at hfound herr
  unfold RequestApproval
  simp only [hdec, if_neg hch, hfound, herr, convertDeploymentToFields, hdep]
  show (match (afterPost req app decoded deployment).api.PostMessage
          (getChannelID (withRequest req app) decoded.Slack.Channel).1.1
          (promptText
            (retrieveApproverIds (getChannelID (withRequest req app) decoded.Slack.Channel).2
              decoded.Slack.Approvers).1.1
            app.DeploymentName)
          (deployment.Containers.map (fun container => container.Image)) with
      | some _ =>
          Outcome.done (afterPost req app decoded deployment, oga.ApproveDeployment app)
      | none => Outcome.done (afterRecord req app decoded deployment, oga)) = _
  rw [hapi]

/-! ## RequestApproval -/

/-- Where the auto-admission holds: when the payload fails to decode, when the decoder
fills the structure and the channel is empty, when the channel is neither cached nor a
channel of the workspace, or when posting the message fails, RequestApproval returns
having called ApproveDeployment on the gate exactly once, with the Approval it was given,
and the approver lists it keeps are the ones it had. -/
theorem RequestApproval_auto_admits_malformed (decode : String → Decoded Annotation)
    (req : SlackRequester) (oga : Interface) (app : Approval) (annon : String)
    (hcase : decode annon = Decoded.failure ∨
      ∃ decoded, decode annon = Decoded.value decoded ∧
        (decoded.Slack.Channel = "" ∨
         (decoded.Slack.Channel ≠ "" ∧ ChannelUnknown req decoded.Slack.Channel) ∨
         (decoded.Slack.Channel ≠ "" ∧ PostingFails req oga app decoded))) :
    ∃ req1 oga1,
      RequestApproval decode req oga app annon = Outcome.done (req1, oga1) ∧
      oga1.approved = oga.approved ++ [app] ∧
      req1.approvers = req.approvers ∧
      ∀ k, mapGet req1.approvers k = mapGet req.approvers k := by
  rcases hcase with hfail | ⟨decoded, hdec, hempty | ⟨hch, hunknown⟩ | ⟨hch, hpost⟩⟩
  · refine ⟨withRequest req app, oga.ApproveDeployment app, ?_, rfl, rfl, fun _ => rfl⟩
    unfold RequestApproval
    simp only [hfail]
    rfl
  · refine ⟨withRequest req app, oga.ApproveDeployment app, ?_, rfl, rfl, fun _ => rfl⟩
    unfold RequestApproval
    simp only [hdec, if_pos hempty]
    rfl
  · have hunknown2 : ChannelUnknown (withRequest req app) decoded.Slack.Channel := hunknown
    obtain ⟨err, herr⟩ := getChannelID_unknown _ _ hunknown2
    have hsame := getChannelID_same (withRequest req app) decoded.Slack.Channel
    refine ⟨(getChannelID (withRequest req app) decoded.Slack.Channel).2,
      oga.ApproveDeployment app, ?_, rfl, hsame.2.2.2.2.2.1, ?_⟩
    · simp only [withRequest] at herr
      unfold RequestApproval
      simp only [hdec, if_neg hch, herr]
      rfl
    · intro k
      rw [hsame.2.2.2.2.2.1]
      rfl
  · obtain ⟨hfound, deployment, hdep, hfails⟩ := hpost
    have hrun := RequestApproval_posts decode req oga app annon decoded deployment hdec hch
      hfound hdep
    obtain ⟨e, he⟩ := Option.isSome_iff_exists.1 hfails
    rw [he] at hrun
    have happr := (afterPost_same req app decoded deployment).2.1
    refine ⟨afterPost req app decoded deployment, oga.ApproveDeployment app, hrun, rfl, happr,
      ?_⟩
    intro k
    rw [happr]

/-- Examples of the auto-admission, one configuration for each of the four cases: an
undecodable payload, a payload without channel, a channel the workspace does not have, and
a client whose PostMessage fails. -/
theorem RequestApproval_auto_admits_malformed_examples :
    (∃ req1 oga1,
      RequestApproval flatDecode (testRequester FakeSlackClient "") FakeInitializer fooApproval
        "garbage" = Outcome.done (req1, oga1) ∧
      oga1.approved = FakeInitializer.approved ++ [fooApproval] ∧
      req1.approvers = (testRequester FakeSlackClient "").approvers ∧
      ∀ k, mapGet req1.approvers k = mapGet (testRequester FakeSlackClient "").approvers k) ∧
    (∃ req1 oga1,
      RequestApproval flatDecode (testRequester FakeSlackClient "") FakeInitializer fooApproval
        "approvers: @foo\n" = Outcome.done (req1, oga1) ∧
      oga1.approved = FakeInitializer.approved ++ [fooApproval] ∧
      req1.approvers = (testRequester FakeSlackClient "").approvers ∧
      ∀ k, mapGet req1.approvers k = mapGet (testRequester FakeSlackClient "").approvers k) ∧
    (∃ req1 oga1,
      RequestApproval flatDecode (testRequester FakeSlackClient "") FakeInitializer fooApproval
        "channel: #nochan\n" = Outcome.done (req1, oga1) ∧
      oga1.approved = FakeInitializer.approved ++ [fooApproval] ∧
      req1.approvers = (testRequester FakeSlackClient "").approvers ∧
      ∀ k, mapGet req1.approvers k = mapGet (testRequester FakeSlackClient "").approvers k) ∧
    (∃ req1 oga1,
      RequestApproval flatDecode (testRequester (exampleClient (some "down")) "")
        FakeInitializer fooApproval "channel: #deploys\napprovers: @alice\n" =
        Outcome.done (req1, oga1) ∧
      oga1.approved = FakeInitializer.approved ++ [fooApproval] ∧
      req1.approvers = (testRequester (exampleClient (some "down")) "").approvers ∧
      ∀ k, mapGet req1.approvers k =
        mapGet (testRequester (exampleClient (some "down")) "").approvers k) :=
  ⟨RequestApproval_auto_admits_malformed flatDecode (testRequester FakeSlackClient "")
      FakeInitializer fooApproval "garbage" (Or.inl (by decide)),
   RequestApproval_auto_admits_malformed flatDecode (testRequester FakeSlackClient "")
      FakeInitializer fooApproval "approvers: @foo\n"
      (Or.inr ⟨{ Slack := { Channel := "", Approvers := ["@foo"] } }, by decide,
        Or.inl rfl⟩),
   RequestApproval_auto_admits_malformed flatDecode (testRequester FakeSlackClient "")
      FakeInitializer fooApproval "channel: #nochan\n"
      (Or.inr ⟨{ Slack := { Channel := "#nochan", Approvers := [] } }, by decide,
        Or.inr (Or.inl ⟨by decide, by decide,
          [{ ID := "C7ALL3GP2", Name := "bar" }, { ID := "C7CCVMSTZ", Name := "foo" }], rfl,
          by decide⟩)⟩),
   RequestApproval_auto_admits_malformed flatDecode
      (testRequester (exampleClient (some "down")) "") FakeInitializer fooApproval
      "channel: #deploys\napprovers: @alice\n"
      (Or.inr ⟨{ Slack := { Channel := "#deploys", Approvers := ["@alice"] } }, by decide,
        Or.inr (Or.inr ⟨by decide, by decide, NewDeployment "foo", rfl, by decide⟩)⟩)⟩

theorem getChannelID_cached (req : SlackRequester) (channel : String)
    (channels : List slack.Channel) (cha : slack.Channel)
    (hapi : req.api.GetChannels = Except.ok channels)
    (hcache : mapGet req.channelCache.items (stringsReplaceOnce channel '#') = some cha) :
    (getChannelID req channel).1 = (cha.ID, none) := by
  unfold getChannelID
  simp only [hapi, lru.Cache.Get, hcache]

/-- C12: RequestApproval does not auto-admit on every malformed configuration. When the
payload is a null document, which the decoder accepts without error while leaving the
annotation pointer nil, so that there is no channel, RequestApproval panics on reading the
channel and makes no ApproveDeployment call. When no Slack channel has the configured name
but the channel cache still holds one under it, RequestApproval takes the cached ID, and
once the post succeeds it records the request and makes no ApproveDeployment call. -/
theorem RequestApproval_malformed_not_admitted (decode : String → Decoded Annotation)
    (req : SlackRequester) (oga : Interface) (app : Approval) (annon : String) :
    (decode annon = Decoded.null →
      RequestApproval decode req oga app annon = Outcome.panic Panic.nilDereference) ∧
    (∀ (decoded : Annotation) (channels : List slack.Channel) (cha : slack.Channel)
        (deployment : Deployment),
      decode annon = Decoded.value decoded →
      decoded.Slack.Channel ≠ "" →
      req.api.GetChannels = Except.ok channels →
      (∀ c ∈ channels, c.Name ≠ stringsReplaceOnce decoded.Slack.Channel '#') →
      mapGet req.channelCache.items (stringsReplaceOnce decoded.Slack.Channel '#') = some cha →
      oga.GetDeployment app.DeploymentName = some deployment →
      PostingSucceeds req app decoded deployment →
      RequestApproval decode req oga app annon =
        Outcome.done (afterRecord req app decoded deployment, oga) ∧
      mapGet (afterRecord req app decoded deployment).approvers app.DeploymentName =
        some decoded.Slack.Approvers) := by
  constructor
  · intro hnull
    unfold RequestApproval
    simp only [hnull]
  · intro decoded channels cha deployment hdec hch hapi _ hcache hdep hpost
    have hfound : (getChannelID (withRequest req app) decoded.Slack.Channel).1.2 = none := by
      rw [getChannelID_cached (withRequest req app) decoded.Slack.Channel channels cha hapi
        hcache]
    have hrun := RequestApproval_posts decode req oga app annon decoded deployment hdec hch
      hfound hdep
    unfold PostingSucceeds at hpost
    rw [hpost] at hrun
    exact ⟨hrun, mapGet_mapSet_self _ _ _⟩

/-- Evaluation of C12 on the requester of the tests: the empty payload, a null document,
makes RequestApproval panic; and for the channel gone, which the workspace does not have
but the cache still holds, the prompt is posted to the cached ID and no ApproveDeployment
call is made. -/
theorem RequestApproval_malformed_not_admitted_witness :
    RequestApproval flatDecode (testRequester FakeSlackClient "") FakeInitializer fooApproval
      "" = Outcome.panic Panic.nilDereference ∧
    (RequestApproval flatDecode staleRequester FakeInitializer fooApproval
        "channel: #gone\napprovers: @bjhaid\n" =
      Outcome.done
        (afterRecord staleRequester fooApproval
          { Slack := { Channel := "#gone", Approvers := ["@bjhaid"] } } (NewDeployment "foo"),
         FakeInitializer) ∧
      mapGet (afterRecord staleRequester fooApproval
          { Slack := { Channel := "#gone", Approvers := ["@bjhaid"] } }
          (NewDeployment "foo")).approvers fooApproval.DeploymentName = some ["@bjhaid"]) :=
  ⟨(RequestApproval_malformed_not_admitted flatDecode (testRequester FakeSlackClient "")
      FakeInitializer fooApproval "").1 (by decide),
   (RequestApproval_malformed_not_admitted flatDecode staleRequester FakeInitializer
      fooApproval "channel: #gone\napprovers: @bjhaid\n").2
      { Slack := { Channel := "#gone", Approvers := ["@bjhaid"] } }
      [{ ID := "C7ALL3GP2", Name := "bar" }, { ID := "C7CCVMSTZ", Name := "foo" }]
      { ID := "C9GONE", Name := "gone" } (NewDeployment "foo")
      (by decide) (by decide) rfl (by decide) (by decide) rfl rfl⟩


/-- C13: a configuration whose approvers cannot be resolved is not auto-admitted. Once
the channel is resolved and the gate returns the deployment, RequestApproval gets a nil
error from retrieveApproverIds whatever the approvers resolve to, posts the prompt, makes
no ApproveDeployment call and records the approver list as configured. -/
theorem RequestApproval_waits_without_approvers (decode : String → Decoded Annotation)
    (req : SlackRequester) (oga : Interface) (app : Approval) (annon : String)
    (decoded : Annotation) (deployment : Deployment)
    (hdec : decode annon = Decoded.value decoded)
    (hch : decoded.Slack.Channel ≠ "")
    (hfound : (getChannelID (withRequest req app) decoded.Slack.Channel).1.2 = none)
    (hdep : oga.GetDeployment app.DeploymentName = some deployment)
    (hpost : PostingSucceeds req app decoded deployment) :
    (retrieveApproverIds (getChannelID (withRequest req app) decoded.Slack.Channel).2
      decoded.Slack.Approvers).1.2 = none ∧
    RequestApproval decode req oga app annon =
      Outcome.done (afterRecord req app decoded deployment, oga) ∧
    mapGet (afterRecord req app decoded deployment).approvers app.DeploymentName =
      some decoded.Slack.Approvers ∧
    mapGet (afterRecord req app decoded deployment).requestStore app.DeploymentName =
      some app := by
  have hrun := RequestApproval_posts decode req oga app annon decoded deployment hdec hch
    hfound hdep
  unfold PostingSucceeds at hpost
  rw [hpost] at hrun
  exact ⟨retrieveApproverIds_err _ _, hrun, mapGet_mapSet_self _ _ _, mapGet_mapSet_self _ _ _⟩

/-- Evaluation of C13 on the fake client of the tests with channel bar: for an empty
approver list (the second configuration of TestRetrieveApprovers) and for a list naming
nobody of the workspace, no ID is resolved and the deployment is left waiting. -/
theorem RequestApproval_waits_without_approvers_witness :
    ((retrieveApproverIds
        (getChannelID (withRequest (testRequester FakeSlackClient "") fooApproval) "#bar").2
        []).1.1 = [] ∧
      (retrieveApproverIds
        (getChannelID (withRequest (testRequester FakeSlackClient "") fooApproval) "#bar").2
        []).1.2 = none ∧
      RequestApproval flatDecode (testRequester FakeSlackClient "") FakeInitializer fooApproval
        "channel: #bar\n" =
        Outcome.done
          (afterRecord (testRequester FakeSlackClient "") fooApproval
            { Slack := { Channel := "#bar", Approvers := [] } } (NewDeployment "foo"),
           FakeInitializer) ∧
      mapGet (afterRecord (testRequester FakeSlackClient "") fooApproval
          { Slack := { Channel := "#bar", Approvers := [] } }
          (NewDeployment "foo")).approvers fooApproval.DeploymentName = some [] ∧
      mapGet (afterRecord (testRequester FakeSlackClient "") fooApproval
          { Slack := { Channel := "#bar", Approvers := [] } }
          (NewDeployment "foo")).requestStore fooApproval.DeploymentName = some fooApproval) ∧
    ((retrieveApproverIds
        (getChannelID (withRequest (testRequester FakeSlackClient "") fooApproval) "#bar").2
        ["@nobody"]).1.1 = [] ∧
      (retrieveApproverIds
        (getChannelID (withRequest (testRequester FakeSlackClient "") fooApproval) "#bar").2
        ["@nobody"]).1.2 = none ∧
      RequestApproval flatDecode (testRequester FakeSlackClient "") FakeInitializer fooApproval
        "channel: #bar\napprovers: @nobody\n" =
        Outcome.done
          (afterRecord (testRequester FakeSlackClient "") fooApproval
            { Slack := { Channel := "#bar", Approvers := ["@nobody"] } } (NewDeployment "foo"),
           FakeInitializer) ∧
      mapGet (afterRecord (testRequester FakeSlackClient "") fooApproval
          { Slack := { Channel := "#bar", Approvers := ["@nobody"] } }
          (NewDeployment "foo")).approvers fooApproval.DeploymentName = some ["@nobody"] ∧
      mapGet (afterRecord (testRequester FakeSlackClient "") fooApproval
          { Slack := { Channel := "#bar", Approvers := ["@nobody"] } }
          (NewDeployment "foo")).requestStore fooApproval.DeploymentName = some fooApproval) :=
  ⟨⟨by decide,
    RequestApproval_waits_without_approvers flatDecode (testRequester FakeSlackClient "")
      FakeInitializer fooApproval "channel: #bar\n"
      { Slack := { Channel := "#bar", Approvers := [] } } (NewDeployment "foo")
      (by decide) (by decide) (by decide) rfl rfl⟩,
   ⟨by decide,
    RequestApproval_waits_without_approvers flatDecode (testRequester FakeSlackClient "")
      FakeInitializer fooApproval "channel: #bar\napprovers: @nobody\n"
      { Slack := { Channel := "#bar", Approvers := ["@nobody"] } } (NewDeployment "foo")
      (by decide) (by decide) (by decide) rfl rfl⟩⟩

/-! ## Run -/

/-- What the `MessageEvent` case of `Run` does on a message that names a deployment and
whose sender matched an approver. -/
theorem handleMessage_approved (req : SlackRequester) (oga : Interface)
    (ev : slack.MessageEvent) (name : String) (approval : Approval)
    (hbot : ev.User ≠ req.userID) (huser : ev.User ≠ "")
    (hmatch : FindStringSubmatch ev.Text = some name)
    (hauth : (matchApprover ev.User ((mapGet req.approvers name).getD []) req).1 = true)
    (hstored : mapGet req.requestStore name = some approval)
    (hinit : req.initializer = true) :
    ∃ req1, handleMessage req oga ev =
      Outcome.done
        (req1,
         oga.ApproveDeployment
          (match ((matchApprover ev.User ((mapGet req.approvers name).getD [])
              req).2.userCache.Get name).1 with
            | some user => { approval with Approver := profileText user }
            | none => { approval with Approver := "" })) := by
  have hsame := matchApprover_same ev.User ((mapGet req.approvers name).getD []) req
  have hstored2 : mapGet (matchApprover ev.User ((mapGet req.approvers name).getD [])
      req).2.requestStore name = some approval := by
    rw [hsame.2.2.1]; exact hstored
  have hinit2 : (matchApprover ev.User ((mapGet req.approvers name).getD [])
      req).2.initializer = true := by
    rw [hsame.2.2.2.2.1]; exact hinit
  unfold handleMessage
  simp only [if_neg hbot, if_neg huser, hmatch, hauth, hstored2, hinit2, if_true]
  exact ⟨_, rfl⟩

/-- C14: the Approval that Run passes to ApproveDeployment does not identify the sender.
For a message naming a pending deployment and sent by one of its approvers, the Approver
is the empty string when the user cache has no entry under the name of the deployment,
and otherwise the profile of the user cached under the name of the deployment, whoever
sent the message. -/
theorem handleMessage_does_not_name_approver (req : SlackRequester) (oga : Interface)
    (ev : slack.MessageEvent) (name : String) (approval : Approval)
    (hbot : ev.User ≠ req.userID) (huser : ev.User ≠ "")
    (hmatch : FindStringSubmatch ev.Text = some name)
    (hauth : (matchApprover ev.User ((mapGet req.approvers name).getD []) req).1 = true)
    (hstored : mapGet req.requestStore name = some approval)
    (hinit : req.initializer = true) :
    (mapGet (matchApprover ev.User ((mapGet req.approvers name).getD [])
        req).2.userCache.items name = none →
      ∃ req1, handleMessage req oga ev =
        Outcome.done (req1, oga.ApproveDeployment { approval with Approver := "" })) ∧
    (∀ user, mapGet (matchApprover ev.User ((mapGet req.approvers name).getD [])
        req).2.userCache.items name = some user →
      ∃ req1, handleMessage req oga ev =
        Outcome.done
          (req1, oga.ApproveDeployment { approval with Approver := profileText user })) := by
  obtain ⟨req1, hrun⟩ := handleMessage_approved req oga ev name approval hbot huser hmatch
    hauth hstored hinit
  constructor
  · intro hmiss
    refine ⟨req1, ?_⟩
    rw [hrun]
    simp only [lru.Cache.Get, hmiss]
  · intro user hhit
    refine ⟨req1, ?_⟩
    rw [hrun]
    simp only [lru.Cache.Get, hhit]

/-- Evaluation of C14 in the example workspace, where alice has ID U1 and the user foo has
ID U2: when alice approves deployment web the Approver is empty, and when alice approves
deployment foo the Approver is the profile of the user foo. -/
theorem handleMessage_does_not_name_approver_witness :
    (∃ req1, handleMessage (waitingRequester "web" ["@alice"]) FakeInitializer
        { User := "U1", Text := "oga approve web", Channel := "C1" } =
      Outcome.done
        (req1, FakeInitializer.ApproveDeployment
          { Approver := "", DeploymentName := "web", RequesterName := "slack" })) ∧
    (∃ req1, handleMessage (waitingRequester "foo" ["@alice", "@foo"]) FakeInitializer
        { User := "U1", Text := "oga approve foo", Channel := "C1" } =
      Outcome.done
        (req1, FakeInitializer.ApproveDeployment
          { Approver := "Username: foo, Fullname: Foo F, Email: foo@example.com\n",
            DeploymentName := "foo", RequesterName := "slack" })) :=
  ⟨(handleMessage_does_not_name_approver (waitingRequester "web" ["@alice"]) FakeInitializer
      { User := "U1", Text := "oga approve web", Channel := "C1" } "web"
      { Approver := "", DeploymentName := "web", RequesterName := "slack" }
      (by decide) (by decide) (by decide) (by decide) (by decide) (by decide)).1 (by decide),
   (handleMessage_does_not_name_approver (waitingRequester "foo" ["@alice", "@foo"])
      FakeInitializer { User := "U1", Text := "oga approve foo", Channel := "C1" } "foo"
      { Approver := "", DeploymentName := "foo", RequesterName := "slack" }
      (by decide) (by decide) (by decide) (by decide) (by decide) (by decide)).2
      { ID := "U2",
        Profile := { DisplayName := "foo", RealName := "Foo F", Email := "foo@example.com" } }
      (by decide)⟩

/-- The loop of `Run` finds a match exactly when the ID of the sender is among the IDs to
which the recorded approvers resolve. -/
theorem matchApprover_iff (sender : String) (approvers : List String) :
    ∀ req : SlackRequester,
      (matchApprover sender approvers req).1 = true ↔ sender ∈ resolveAll approvers req := by
  induction approvers with
  | nil => intro req; simp [matchApprover, resolveAll]
  | cons approver rest ih =>
    intro req
    unfold matchApprover
    by_cases h : sender = (getUserID req approver).1.1
    · rw [if_pos h]
      simp only [resolveAll, List.mem_cons]
      exact ⟨fun _ => Or.inl h, fun _ => trivial⟩
    · rw [if_neg h]
      simp only [resolveAll, List.mem_cons]
      rw [ih]
      exact ⟨fun hm => Or.inr hm, fun hm => hm.resolve_left h⟩

/-- C15: Run approves only on behalf of an authorized sender. Whenever the handling of a
message returns, either no ApproveDeployment call was made and the request and approver
tables are as before, or the sender ID is not empty, is not the ID of the bot, and is
among the IDs to which the approvers recorded for the named deployment resolve, and the
one call made passes the approval stored for that deployment, the tables of the other
deployments being as before. For a sender that is empty, the bot, or not among those
IDs, and for a text that names no deployment, the handling returns without a call and
with both tables unchanged. -/
theorem handleMessage_only_authorized (req : SlackRequester) (oga : Interface)
    (ev : slack.MessageEvent) :
    (∀ req1 oga1, handleMessage req oga ev = Outcome.done (req1, oga1) →
      (oga1.approved = oga.approved ∧ req1.requestStore = req.requestStore ∧
        req1.approvers = req.approvers) ∨
      (ev.User ≠ "" ∧ ev.User ≠ req.userID ∧
        ∃ name approval,
          FindStringSubmatch ev.Text = some name ∧
          ev.User ∈ resolveAll ((mapGet req.approvers name).getD []) req ∧
          mapGet req.requestStore name = some approval ∧
          (∃ identity, oga1.approved =
            oga.approved ++ [{ approval with Approver := identity }]) ∧
          ∀ k, k ≠ name →
            mapGet req1.requestStore k = mapGet req.requestStore k ∧
            mapGet req1.approvers k = mapGet req.approvers k)) ∧
    ((ev.User = "" ∨ ev.User = req.userID ∨ FindStringSubmatch ev.Text = none ∨
        ∃ name, FindStringSubmatch ev.Text = some name ∧
          ev.User ∉ resolveAll ((mapGet req.approvers name).getD []) req) →
      ∃ req1, handleMessage req oga ev = Outcome.done (req1, oga) ∧
        req1.requestStore = req.requestStore ∧ req1.approvers = req.approvers) := by
  constructor
  · intro req1 oga1 h
    unfold handleMessage at h
    by_cases hbot : ev.User = req.userID
    · rw [if_pos hbot] at h
      cases h
      exact Or.inl ⟨rfl, rfl, rfl⟩
    · rw [if_neg hbot] at h
      by_cases huser : ev.User = ""
      · rw [if_pos huser] at h
        cases h
        exact Or.inl ⟨rfl, rfl, rfl⟩
      · rw [if_neg huser] at h
        cases hfind : FindStringSubmatch ev.Text with
        | none =>
          simp only [hfind] at h
          cases h
          exact Or.inl ⟨rfl, rfl, rfl⟩
        | some name =>
          have hsame := matchApprover_same ev.User ((mapGet req.approvers name).getD []) req
          cases hm : (matchApprover ev.User ((mapGet req.approvers name).getD []) req).1 with
          | false =>
            simp only [hfind, hm] at h
            cases h
            exact Or.inl ⟨rfl, hsame.2.2.1, hsame.2.2.2.2.2.1⟩
          | true =>
            cases hst : mapGet (matchApprover ev.User ((mapGet req.approvers name).getD [])
                req).2.requestStore name with
            | none =>
              simp only [hfind, hm, hst] at h
              cases h
            | some approval =>
              cases hi : (matchApprover ev.User ((mapGet req.approvers name).getD [])
                  req).2.initializer with
              | false =>
                simp only [hfind, hm, hst, hi] at h
                cases h
              | true =>
                simp only [hfind, hm, hst, hi, if_true] at h
                have hres := (matchApprover_iff ev.User _ req).1 hm
                have hstored : mapGet req.requestStore name = some approval := by
                  rw [← hsame.2.2.1]; exact hst
                cases h
                refine Or.inr ⟨huser, hbot, name, approval, rfl, hres, hstored, ?_, ?_⟩
                · cases ((matchApprover ev.User ((mapGet req.approvers name).getD [])
                    req).2.userCache.Get name).1 with
                  | none => exact ⟨"", rfl⟩
                  | some user => exact ⟨profileText user, rfl⟩
                · intro k hk
                  constructor
                  · show mapGet (mapDelete _ name) k = _
                    rw [mapGet_mapDelete_ne _ _ _ hk, hsame.2.2.1]
                  · show mapGet (mapDelete _ name) k = _
                    rw [mapGet_mapDelete_ne _ _ _ hk, hsame.2.2.2.2.2.1]
  · intro hcase
    unfold handleMessage
    by_cases hbot : ev.User = req.userID
    · rw [if_pos hbot]
      exact ⟨req, rfl, rfl, rfl⟩
    · rw [if_neg hbot]
      by_cases huser : ev.User = ""
      · rw [if_pos huser]
        exact ⟨req, rfl, rfl, rfl⟩
      · rw [if_neg huser]
        rcases hcase with h1 | h2 | h3 | ⟨name, hfind, hnone⟩
        · exact absurd h1 huser
        · exact absurd h2 hbot
        · simp only [h3]
          exact ⟨req, rfl, rfl, rfl⟩
        · have hsame := matchApprover_same ev.User ((mapGet req.approvers name).getD []) req
          have hm : (matchApprover ev.User ((mapGet req.approvers name).getD []) req).1 =
              false := by
            cases hb : (matchApprover ev.User ((mapGet req.approvers name).getD []) req).1 with
            | false => rfl
            | true => exact absurd ((matchApprover_iff ev.User _ req).1 hb) hnone
          simp only [hfind, hm]
          exact ⟨_, rfl, hsame.2.2.1, hsame.2.2.2.2.2.1⟩

/-- Witness of C15 in the example workspace, deployment web waiting for alice (ID U1): the
approval sent by alice is passed on, the same text sent by the user with ID U2 is not. -/
theorem handleMessage_only_authorized_witness :
    ("U1" ≠ "" ∧ "U1" ≠ (waitingRequester "web" ["@alice"]).userID ∧
      ∃ name approval,
        FindStringSubmatch "oga approve web" = some name ∧
        "U1" ∈ resolveAll ((mapGet (waitingRequester "web" ["@alice"]).approvers name).getD [])
          (waitingRequester "web" ["@alice"]) ∧
        mapGet (waitingRequester "web" ["@alice"]).requestStore name = some approval ∧
        (∃ identity,
          (FakeInitializer.ApproveDeployment
            { Approver := "", DeploymentName := "web", RequesterName := "slack" }).approved =
          FakeInitializer.approved ++ [{ approval with Approver := identity }]) ∧
        ∀ k, k ≠ name →
          mapGet approvedWeb.requestStore k =
            mapGet (waitingRequester "web" ["@alice"]).requestStore k ∧
          mapGet approvedWeb.approvers k =
            mapGet (waitingRequester "web" ["@alice"]).approvers k) ∧
    (∃ req1,
      handleMessage (waitingRequester "web" ["@alice"]) FakeInitializer
        { User := "U2", Text := "oga approve web", Channel := "C1" } =
        Outcome.done (req1, FakeInitializer) ∧
      req1.requestStore = (waitingRequester "web" ["@alice"]).requestStore ∧
      req1.approvers = (waitingRequester "web" ["@alice"]).approvers) :=
  ⟨((handleMessage_only_authorized (waitingRequester "web" ["@alice"]) FakeInitializer
      { User := "U1", Text := "oga approve web", Channel := "C1" }).1
      approvedWeb
      (FakeInitializer.ApproveDeployment
        { Approver := "", DeploymentName := "web", RequesterName := "slack" })
      (by rfl)).resolve_left (by decide),
   (handleMessage_only_authorized (waitingRequester "web" ["@alice"]) FakeInitializer
      { User := "U2", Text := "oga approve web", Channel := "C1" }).2
      (Or.inr (Or.inr (Or.inr ⟨"web", by decide, by decide⟩)))⟩

/-! ## The approval pattern -/

theorem afterLiteral_append (lit s : List Char) : afterLiteral lit (lit ++ s) = some s := by
  induction lit with
  | nil => cases s <;> rfl
  | cons l lit ih => simp [afterLiteral, ih]

theorem takeWhile_word (w rest : List Char) (c : Char)
    (hword : ∀ x ∈ w, isWordChar x = true) (hc : isWordChar c = false) :
    (w ++ c :: rest).takeWhile isWordChar = w := by
  rw [List.takeWhile_append_of_pos hword, List.takeWhile_cons_of_neg (by simp [hc]),
    List.append_nil]

theorem findMatch_of_matchHere (s group : List Char) (hs : s ≠ [])
    (h : matchHere s = some group) : findMatch s = some group := by
  cases s with
  | nil => exact absurd rfl hs
  | cons c s => simp only [findMatch, h]

/-- Where the round trip holds: a name made of word characters only is parsed back in
full from the reply the prompt asks for. -/
theorem FindStringSubmatch_word_name (w : List Char) (hw : w ≠ [])
    (hword : ∀ x ∈ w, isWordChar x = true) :
    FindStringSubmatch ("oga approve " ++ String.mk w) = some (String.mk w) := by
  have htake : w.takeWhile isWordChar = w := by
    have := @List.takeWhile_append_of_pos _ isWordChar w [] hword
    simpa using this
  have hhere : matchHere ("oga approve ".data ++ w) = some w := by
    unfold matchHere
    rw [afterLiteral_append]
    simp only [htake, if_neg hw]
  unfold FindStringSubmatch
  rw [String.data_append, findMatch_of_matchHere _ w (by simp) hhere]
  rfl

/-- C16: the round trip between prompt and parser fails for every name with a character
outside the word class, such as a hyphen or a dot. The prompt asks for the reply
`oga approve n`; for a name n that starts with word characters `w` followed by a
character that is not one, the pattern captures `w` only, which is not n. -/
theorem FindStringSubmatch_cuts_name (w rest : List Char) (c : Char) (ids : String)
    (hw : w ≠ []) (hword : ∀ x ∈ w, isWordChar x = true) (hc : isWordChar c = false) :
    renderText ids (String.mk (w ++ c :: rest)) =
      ids ++ " Deployment *" ++ String.mk (w ++ c :: rest) ++
        "* requires approval, to approve respond with:\n\n\t`" ++
        ("oga approve " ++ String.mk (w ++ c :: rest)) ++ "`" ∧
    FindStringSubmatch ("oga approve " ++ String.mk (w ++ c :: rest)) = some (String.mk w) ∧
    String.mk w ≠ String.mk (w ++ c :: rest) := by
  refine ⟨?_, ?_, ?_⟩
  · simp only [renderText, String.append_assoc]
    rfl
  · have hhere : matchHere ("oga approve ".data ++ (w ++ c :: rest)) = some w := by
      unfold matchHere
      rw [afterLiteral_append]
      simp only [takeWhile_word w rest c hword hc, if_neg hw]
    unfold FindStringSubmatch
    rw [String.data_append, findMatch_of_matchHere _ w (by simp) hhere]
    rfl
  · intro h
    have h2 : w = w ++ c :: rest := by injection h
    have h3 := congrArg List.length h2
    simp at h3

/-- Evaluation of C16 on the names my-app and my.app: both replies are parsed to my. -/
theorem FindStringSubmatch_cuts_name_witness :
    (FindStringSubmatch ("oga approve " ++ String.mk ("my".data ++ '-' :: "app".data)) =
        some (String.mk "my".data) ∧
      String.mk "my".data ≠ String.mk ("my".data ++ '-' :: "app".data)) ∧
    FindStringSubmatch "oga approve my-app" = some "my" ∧
    FindStringSubmatch "oga approve my.app" = some "my" :=
  ⟨(FindStringSubmatch_cuts_name "my".data "app".data '-' "<@U1>" (by decide) (by decide)
      (by decide)).2,
   by decide, by decide⟩

end requester

/-! ## The annotation key -/

theorem enrichAnnotation_lookup_ne {V : Type} (codec : YamlCodec V) (approval : Approval)
    (d e : Deployment) (k : String) (hk : k ≠ defaultAnnotation)
    (h : enrichAnnotation codec approval d = Outcome.done e) :
    annotationLookup e.ObjectMeta.Annotations k = annotationLookup d.ObjectMeta.Annotations k := by
  unfold enrichAnnotation at h
  split at h
  · cases h; rfl
  · cases h
  · split at h
    · cases h; rfl
    · split at h
      · cases h
      · rename_i annotations hann
        cases h
        simp only [hann, annotationLookup]
        exact mapGet_mapSet_ne _ _ _ _ hk

/-- C17: with an annotation flag other than the default, ApproveDeployment does not work
on the key processDeployment tested. It reads and writes the key of the constant
defaultAnnotation: whenever it returns, the value under the configured key is as before,
without approved_by; for a deployment without the default key it decodes the empty
string, and it panics when the decoder leaves the map nil for that, and creates the
default key when the decoder gives a map. -/
theorem ApproveDeployment_ignores_configured_key {V : Type} (cfg : Config)
    (codec : YamlCodec V) (approvedDeployment : Approval) (oga : OgaInitializer)
    (deployment : Deployment)
    (hflag : cfg.annotation ≠ defaultAnnotation)
    (hstored : oga.store.get approvedDeployment.DeploymentName = some deployment) :
    (∀ d1 oga1, ApproveDeployment cfg codec approvedDeployment oga = Outcome.done (d1, oga1) →
      annotationLookup d1.ObjectMeta.Annotations cfg.annotation =
        annotationLookup deployment.ObjectMeta.Annotations cfg.annotation) ∧
    (annotationLookup deployment.ObjectMeta.Annotations defaultAnnotation = none →
      codec.Unmarshal "" = Decoded.null →
      ApproveDeployment cfg codec approvedDeployment oga = Outcome.panic Panic.nilMapWrite) ∧
    (∀ (m : GoMap V) (b : String) (annotations : GoMap String),
      deployment.ObjectMeta.Annotations = some annotations →
      mapGet annotations defaultAnnotation = none →
      codec.Unmarshal "" = Decoded.value m →
      codec.Marshal (mapSet m "approved_by" (codec.ofString approvedDeployment.Approver)) =
        some b →
      deployment.ObjectMeta.Initializers ≠ none →
      ∃ d1 oga1, ApproveDeployment cfg codec approvedDeployment oga = Outcome.done (d1, oga1) ∧
        annotationLookup d1.ObjectMeta.Annotations defaultAnnotation = some b ∧
        annotationLookup d1.ObjectMeta.Annotations cfg.annotation =
          annotationLookup deployment.ObjectMeta.Annotations cfg.annotation) := by
  have hpart1 : ∀ d1 oga1,
      ApproveDeployment cfg codec approvedDeployment oga = Outcome.done (d1, oga1) →
      annotationLookup d1.ObjectMeta.Annotations cfg.annotation =
        annotationLookup deployment.ObjectMeta.Annotations cfg.annotation := by
    intro d1 oga1 h
    unfold ApproveDeployment at h
    simp only [hstored] at h
    cases henrich : enrichAnnotation codec approvedDeployment deployment with
    | panic p => simp only [henrich] at h; cases h
    | done enriched =>
      cases hinit : initializeDeployment cfg enriched oga with
      | panic p => simp only [henrich, hinit] at h; cases h
      | done r =>
        obtain ⟨err, d2, oga0⟩ := r
        simp only [henrich, hinit] at h
        have hann := initializeDeployment_annotations cfg enriched d2 oga oga0 err hinit
        cases h
        rw [hann]
        exact enrichAnnotation_lookup_ne codec approvedDeployment deployment enriched _ hflag
          henrich
  refine ⟨hpart1, ?_, ?_⟩
  · intro hmissing hnull
    have hvalue : annotationValue deployment.ObjectMeta.Annotations defaultAnnotation = "" := by
      simp only [annotationValue, hmissing, Option.getD_none]
    unfold ApproveDeployment
    simp only [hstored, enrichAnnotation, hvalue, hnull]
  · intro m b annotations hann hmissing hdecode hencode hinits
    have hvalue : annotationValue deployment.ObjectMeta.Annotations defaultAnnotation = "" := by
      simp only [annotationValue, annotationLookup, hann, hmissing, Option.getD_none]
    have henrich : enrichAnnotation codec approvedDeployment deployment =
        Outcome.done { deployment with
          ObjectMeta := { deployment.ObjectMeta with
            Annotations := some (mapSet annotations defaultAnnotation b) } } := by
      rw [hann] at hvalue
      unfold enrichAnnotation
      simp only [hann, hvalue, hdecode, hencode]
    obtain ⟨err, d1, oga0, hinit⟩ := initializeDeployment_returns cfg
      { deployment with
        ObjectMeta := { deployment.ObjectMeta with
          Annotations := some (mapSet annotations defaultAnnotation b) } } oga hinits
    have hd1 := initializeDeployment_annotations cfg _ d1 oga oga0 err hinit
    have hrun : ApproveDeployment cfg codec approvedDeployment oga =
        Outcome.done
          (d1, { oga0 with store := oga0.store.deleteKey approvedDeployment.DeploymentName }) := by
      unfold ApproveDeployment
      simp only [hstored, henrich, hinit]
    refine ⟨d1, _, hrun, ?_, hpart1 _ _ hrun⟩
    rw [hd1]
    exact mapGet_mapSet_self _ _ _

/-- Evaluation of C17 with the annotation flag set to example.com/approval: deployment
foo carrying its payload under that key is gated by processDeployment; approving it
panics with the codec for which the empty document is null, and with the codec that
decodes it to the empty map a key of the default name is created while the payload under
the configured key stays as it was. -/
theorem ApproveDeployment_ignores_configured_key_witness :
    (∃ req1 oga1,
      processDeployment flaggedConfig flatCodec flaggedFoo (FakeRequester "fake") testGate =
        Outcome.done (flaggedFoo, req1, oga1) ∧
      oga1.store.get "foo" = some flaggedFoo ∧
      req1.received = [(
        { Approver := "", DeploymentName := "foo", RequesterName := "fake" },
        "channel: #baz\n")]) ∧
    ApproveDeployment flaggedConfig flatCodec
        { Approver := "@bjhaid", DeploymentName := "foo", RequesterName := "fake" }
        (gateHolding flaggedFoo) = Outcome.panic Panic.nilMapWrite ∧
    (∃ d1 oga1,
      ApproveDeployment flaggedConfig requester.lenientCodec
          { Approver := "@bjhaid", DeploymentName := "foo", RequesterName := "fake" }
          (gateHolding flaggedFoo) = Outcome.done (d1, oga1) ∧
      annotationLookup d1.ObjectMeta.Annotations defaultAnnotation =
        some "approved_by: @bjhaid\n" ∧
      annotationLookup d1.ObjectMeta.Annotations flaggedConfig.annotation =
        annotationLookup flaggedFoo.ObjectMeta.Annotations flaggedConfig.annotation) :=
  ⟨⟨{ FakeRequester "fake" with
        received := [(
          { Approver := "", DeploymentName := "foo", RequesterName := "fake" },
          "channel: #baz\n")] },
     gateHolding flaggedFoo, by rfl, by decide, rfl⟩,
   (ApproveDeployment_ignores_configured_key flaggedConfig flatCodec
      { Approver := "@bjhaid", DeploymentName := "foo", RequesterName := "fake" }
      (gateHolding flaggedFoo) flaggedFoo (by decide) (by decide)).2.1 (by decide) (by decide),
   (ApproveDeployment_ignores_configured_key flaggedConfig requester.lenientCodec
      { Approver := "@bjhaid", DeploymentName := "foo", RequesterName := "fake" }
      (gateHolding flaggedFoo) flaggedFoo (by decide) (by decide)).2.2
      [] "approved_by: @bjhaid\n" [("example.com/approval", "channel: #baz\n")]
      rfl (by decide) (by decide) (by decide) (by decide)⟩

end Oga
